import Mathlib

/-!
Verification of the MaterialCount inventory application's stock-reconciliation
and costing logic.

The server actions (stock adjustment, client dispatch/return, quick delta,
absolute set, fill-stock batch) and the usage/costing API routes are embedded
as pure functions over an explicit database state `DB`.  JavaScript numbers are
modelled as rationals (`ℚ`); MongoDB collections are modelled as lists of
documents in insertion order; `updateOne` updates the first matching document;
insertions append.  Zod validation (`z.coerce.number().int().min(k)`) is
modelled as the predicate `q.den = 1 ∧ k ≤ q`.
-/

namespace MaterialCount

/-- The `type` field of an adjustment: `din` embeds the string `"in"`,
`dout` embeds `"out"` (`z.enum(['in','out'])`). -/
inductive Direction
  | din
  | dout
deriving DecidableEq

/-- A document of the `materials` collection.  The optional numeric fields
`pricePerPiece`, `pricePerMeter`, `rate`, `gstPercent` are read by every
consumer as `Number(m.field ?? 0) || 0`, so an absent field is represented
as `0`. -/
structure Material where
  id : String
  name : String
  quantity : ℚ
  pricePerPiece : ℚ
  pricePerMeter : ℚ
  rate : ℚ
  gstPercent : ℚ
deriving DecidableEq

/-- One element of the `materials` array of a `client_material_entries`
document. -/
structure EntryItem where
  materialId : String
  materialName : String
  quantity : ℚ
deriving DecidableEq

/-- A document of the `client_material_entries` collection (the client's
append-only transaction ledger). -/
structure ClientEntry where
  clientId : String
  type : Direction
  materials : List EntryItem
  reason : String
deriving DecidableEq

/-- One element of the `items` array of a batch stock-history document. -/
structure StockHistoryItem where
  materialId : String
  materialName : String
  quantityAdded : ℚ
deriving DecidableEq

/-- The document inserted into `stockHistory` by `stockAdjustmentAction`:
`{materialId, materialName, type, quantity, previousStock, newStock, reason}`
(the `date` field is environmental and omitted). -/
structure AdjHistoryDoc where
  materialId : String
  materialName : String
  type : Direction
  quantity : ℚ
  previousStock : ℚ
  newStock : ℚ
  reason : String
deriving DecidableEq

/-- The document inserted into `stockHistory` by `fillStockAction` and
`adjustMaterialQuantity`: `{timestamp, items, totalItems}` (the timestamp is
environmental and omitted). -/
structure BatchHistoryDoc where
  items : List StockHistoryItem
  totalItems : ℚ
deriving DecidableEq

/-- The `stockHistory` collection holds both document shapes. -/
inductive HistoryDoc
  | adj (d : AdjHistoryDoc)
  | batch (d : BatchHistoryDoc)
deriving DecidableEq

/-- One line of a costing snapshot:
`{materialId, name, qty, rate, gstPercent, base, gst, total}`. -/
structure CostingItem where
  materialId : String
  name : String
  qty : ℚ
  rate : ℚ
  gstPercent : ℚ
  base : ℚ
  gst : ℚ
  total : ℚ
deriving DecidableEq

/-- A document of the `client_costing` collection (the `updatedAt` timestamp is
environmental and omitted). -/
structure CostingSnapshot where
  clientId : String
  items : List CostingItem
  beforeTax : ℚ
  gst : ℚ
  grand : ℚ
deriving DecidableEq

/-- The database state: the four collections the reconciliation and costing
logic touches, each a list of documents in insertion order. -/
structure DB where
  materials : List Material
  stockHistory : List HistoryDoc
  clientEntries : List ClientEntry
  clientCosting : List CostingSnapshot
deriving DecidableEq

/-! ### JS `Map` (insertion-ordered association list) -/

/-- `map.get(k)` with default `d`: the value of the first binding of `k`. -/
def mapGetD (m : List (String × α)) (k : String) (d : α) : α :=
  match m with
  | [] => d
  | p :: rest => if p.1 = k then p.2 else mapGetD rest k d

/-- `map.set(k, v)`: replace the existing binding of `k` in place, else append
(JS `Map` keeps insertion order and keeps an overwritten key's position). -/
def mapSet (m : List (String × α)) (k : String) (v : α) : List (String × α) :=
  match m with
  | [] => [(k, v)]
  | p :: rest => if p.1 = k then (k, v) :: rest else p :: mapSet rest k v

/-- `map.has(k)`. -/
def isKey (m : List (String × α)) (k : String) : Bool :=
  match m with
  | [] => false
  | p :: rest => p.1 = k || isKey rest k

/-! ### Collection primitives -/

/-- `db.collection('materials').findOne({_id: new ObjectId(materialId)})`. -/
def findMaterial (db : DB) (materialId : String) : Option Material :=
  db.materials.find? (fun m => m.id == materialId)

/-- `materials.updateOne({_id}, {$set: {quantity}})`: update the first matching
document's quantity. -/
def setQuantityIn : List Material → String → ℚ → List Material
  | [], _, _ => []
  | m :: rest, materialId, q =>
    if m.id = materialId then { m with quantity := q } :: rest
    else m :: setQuantityIn rest materialId q

/-- `client_costing.updateOne({clientId}, {$set: snapshot}, {upsert: true})`. -/
def upsertCostingIn : List CostingSnapshot → CostingSnapshot → List CostingSnapshot
  | [], c => [c]
  | s :: rest, c => if s.clientId = c.clientId then c :: rest else s :: upsertCostingIn rest c

/-- A primitive database write, as issued by the server actions. -/
inductive DBWrite
  | setQuantity (materialId : String) (q : ℚ)
  | appendHistory (h : HistoryDoc)
  | appendClientEntry (e : ClientEntry)
  | upsertCosting (c : CostingSnapshot)
deriving DecidableEq

/-- Apply one write to the database. -/
def applyWrite (db : DB) : DBWrite → DB
  | .setQuantity materialId q => { db with materials := setQuantityIn db.materials materialId q }
  | .appendHistory h => { db with stockHistory := db.stockHistory ++ [h] }
  | .appendClientEntry e => { db with clientEntries := db.clientEntries ++ [e] }
  | .upsertCosting c => { db with clientCosting := upsertCostingIn db.clientCosting c }

/-- Apply a sequence of writes one at a time, in order.  The actions issue
their writes as separate sequential `await`s, with no enclosing database
transaction, so any prefix of the sequence is a reachable database state. -/
def applyWrites (db : DB) (ws : List DBWrite) : DB := ws.foldl applyWrite db

/-- `z.coerce.number().int().min(lo)` applied to an already-numeric value. -/
def IntAtLeast (q : ℚ) (lo : ℚ) : Prop := q.den = 1 ∧ lo ≤ q

instance (q lo : ℚ) : Decidable (IntAtLeast q lo) := by
  unfold IntAtLeast; infer_instance

/-! ### `stockAdjustmentAction` -/

/-- The outcome of an adjustment action, carrying the data embedded in the
returned message.  `insufficientStock available requested` stands for the
response `"Insufficient stock. Available: ${currentStock}, Requested:
${quantity}"`. -/
inductive AdjResult
  | invalid
  | notFound
  | insufficientStock (available requested : ℚ)
  | ok (newStock : ℚ)
deriving DecidableEq

/-- `reason || (type === 'in' ? dIn : dOut)`. -/
def defaultedReason (reason : String) (t : Direction) (dIn dOut : String) : String :=
  if reason = "" then (match t with | .din => dIn | .dout => dOut) else reason

/-- `stockAdjustmentAction`: zod validation (`materialId`/`materialName`
nonempty, `quantity` a positive integer), the not-found and insufficient-stock
guards, and on success the two sequential writes
(`materials.updateOne` then `stockHistory.insertOne`), returned as the emitted
write list.  `currentStock` is `material.quantity || 0`, the identity on a
numeric field. -/
def stockAdjustmentWrites (db : DB) (materialId materialName : String) (quantity : ℚ)
    (t : Direction) (reason : String) : AdjResult × List DBWrite :=
  if materialId = "" ∨ materialName = "" ∨ ¬ IntAtLeast quantity 1 then (.invalid, [])
  else
    match findMaterial db materialId with
    | none => (.notFound, [])
    | some material =>
      let currentStock := material.quantity
      match t with
      | .din =>
        let newStock := currentStock + quantity
        (.ok newStock,
          [.setQuantity materialId newStock,
           .appendHistory (.adj ⟨materialId, materialName, t, quantity, currentStock, newStock,
             defaultedReason reason t "Stock Added" "Stock Removed"⟩)])
      | .dout =>
        if currentStock < quantity then (.insufficientStock currentStock quantity, [])
        else
          let newStock := currentStock - quantity
          (.ok newStock,
            [.setQuantity materialId newStock,
             .appendHistory (.adj ⟨materialId, materialName, t, quantity, currentStock, newStock,
               defaultedReason reason t "Stock Added" "Stock Removed"⟩)])

/-- `stockAdjustmentAction` as a state transformer: the result together with
the database after all its writes. -/
def stockAdjustmentAction (db : DB) (materialId materialName : String) (quantity : ℚ)
    (t : Direction) (reason : String) : AdjResult × DB :=
  let r := stockAdjustmentWrites db materialId materialName quantity t reason
  (r.1, applyWrites db r.2)

/-! ### Usage folds and costing computation -/

/-- One line item of the usage fold shared by `clientStockAdjustmentAction`
and the costing GET route: skip an empty `materialId`, otherwise accumulate
`sign * quantity` into the entry keyed by `materialId`, keeping the first
non-empty `materialName`. -/
def usageNetItem (sign : ℚ) (acc : List (String × String × ℚ)) (it : EntryItem) :
    List (String × String × ℚ) :=
  if it.materialId = "" then acc
  else
    let prev := mapGetD acc it.materialId (it.materialName, 0)
    mapSet acc it.materialId
      (if prev.1 = "" then it.materialName else prev.1, prev.2 + sign * it.quantity)

/-- The usage fold shared by `clientStockAdjustmentAction` and the costing GET
route: fold `client_material_entries` into
`usageMap : materialId → { name, qty }` where `qty` accumulates
`sign * quantity` with `sign = type === 'in' ? -1 : 1`. -/
def usageNetStep (acc : List (String × String × ℚ)) (e : ClientEntry) :
    List (String × String × ℚ) :=
  e.materials.foldl (usageNetItem (match e.type with | .din => -1 | .dout => 1)) acc

/-- `usageMap` after folding the whole ledger. -/
def usageNet (entries : List ClientEntry) : List (String × String × ℚ) :=
  entries.foldl usageNetStep []

/-- The `$in` query on `materials`: only materials whose id occurs among the
usage keys are fetched (ids in the database are valid ObjectIds, so the
`ObjectId.isValid` pre-filter drops nothing that could match). -/
def fetchedMaterials (mats : List Material) (ids : List String) : List Material :=
  mats.filter (fun m => ids.contains m.id)

/-- The `byId`-then-`byName` join: record maps are built by overwriting, so the
last fetched match wins; the name fallback fires only when the usage name is
non-empty and matches a fetched material's non-empty name case-insensitively. -/
def lookupJoined (mats : List Material) (ids : List String) (materialId uname : String) :
    Option Material :=
  let fetched := fetchedMaterials mats ids
  match fetched.reverse.find? (fun m => m.id == materialId) with
  | some m => some m
  | none =>
    if uname = "" then none
    else fetched.reverse.find? (fun m => m.name != "" && m.name.toLower == uname.toLower)

/-- `Number(m?.pricePerPiece ?? 0) || 0` on an optional joined material. -/
def optPP : Option Material → ℚ
  | some m => m.pricePerPiece
  | none => 0

/-- `Number(m?.pricePerMeter ?? 0) || 0`. -/
def optPM : Option Material → ℚ
  | some m => m.pricePerMeter
  | none => 0

/-- `Number(m?.rate ?? 0) || 0`. -/
def optRate : Option Material → ℚ
  | some m => m.rate
  | none => 0

/-- `Number(m.gstPercent) || 0`. -/
def optGst : Option Material → ℚ
  | some m => m.gstPercent
  | none => 0

/-- `mat.name || ''`. -/
def optName : Option Material → String
  | some m => m.name
  | none => ""

/-- One costing line.  The GET route computes
`unitPrice = pp > 0 ? pp : pm > 0 ? pm : 0`; `clientStockAdjustmentAction`
additionally falls back to `rate` (`useRate = true`). -/
def costingLine (useRate : Bool) (mats : List Material) (ids : List String)
    (materialId uname : String) (uqty : ℚ) : CostingItem :=
  let qty := max 0 uqty
  let m := lookupJoined mats ids materialId uname
  let pp := optPP m
  let pm := optPM m
  let r := optRate m
  let unitPrice :=
    if 0 < pp then pp else if 0 < pm then pm else if useRate then (if 0 < r then r else 0) else 0
  let gstPercent := optGst m
  let base := qty * unitPrice
  let gst := base * (gstPercent / 100)
  { materialId := materialId, name := if uname = "" then optName m else uname, qty,
    rate := unitPrice, gstPercent, base, gst, total := base + gst }

/-- The sort comparator `(a, b) => a.name.localeCompare(b.name)`, modelled as
the order on strings. -/
def nameLe (a b : CostingItem) : Prop := a.name ≤ b.name

instance : DecidableRel nameLe := fun a b => inferInstanceAs (Decidable (a.name ≤ b.name))

instance : IsTotal CostingItem nameLe := ⟨fun a b => le_total a.name b.name⟩

instance : IsTrans CostingItem nameLe := ⟨fun _ _ _ h h' => le_trans h h'⟩

/-- `Array.prototype.sort` with the name comparator: a stable sort by name
(modelled by insertion sort, which is stable). -/
def sortByName (l : List CostingItem) : List CostingItem := List.insertionSort nameLe l

/-- The costing line items: map the usage map through the price join, keep
`qty > 0`, sort by name. -/
def computeCostingItems (useRate : Bool) (mats : List Material)
    (entries : List ClientEntry) : List CostingItem :=
  let usage := usageNet entries
  let ids := usage.map (·.1)
  sortByName (((usage.map (fun u => costingLine useRate mats ids u.1 u.2.1 u.2.2)).filter
    (fun r => 0 < r.qty)))

/-- The full costing document: items plus
`beforeTax = Σ base`, `gst = Σ gst`, `grand = beforeTax + gst`. -/
def computeCostingSnapshot (useRate : Bool) (clientId : String) (mats : List Material)
    (entries : List ClientEntry) : CostingSnapshot :=
  let items := computeCostingItems useRate mats entries
  let beforeTax := items.foldl (fun s r => s + r.base) 0
  let gstSum := items.foldl (fun s r => s + r.gst) 0
  { clientId, items, beforeTax, gst := gstSum, grand := beforeTax + gstSum }

/-! ### `clientStockAdjustmentAction` -/

/-- `clientStockAdjustmentAction`: validation (`clientId`, `materialId`,
`materialName` nonempty, `quantity` a positive integer), the same stock guard
as `stockAdjustmentAction`, then three sequential writes: the stock update,
the ledger append, and the costing-snapshot upsert.  The snapshot is
recomputed from the entries read back *after* the insert, i.e. from the old
entries for this client plus the new one, joined against the updated
`materials` collection with the `rate` fallback enabled. -/
def clientStockAdjustmentWrites (db : DB) (clientId materialId materialName : String)
    (quantity : ℚ) (t : Direction) (reason : String) : AdjResult × List DBWrite :=
  if clientId = "" ∨ materialId = "" ∨ materialName = "" ∨ ¬ IntAtLeast quantity 1 then
    (.invalid, [])
  else
    match findMaterial db materialId with
    | none => (.notFound, [])
    | some material =>
      let currentStock := material.quantity
      let proceed : ℚ → AdjResult × List DBWrite := fun newStock =>
        let entry : ClientEntry :=
          ⟨clientId, t, [⟨materialId, materialName, quantity⟩],
            defaultedReason reason t "Client Return" "Client Dispatch"⟩
        let entriesAfter :=
          (db.clientEntries ++ [entry]).filter (fun e => e.clientId == clientId)
        let matsAfter := setQuantityIn db.materials materialId newStock
        let snap := computeCostingSnapshot true clientId matsAfter entriesAfter
        (.ok newStock,
          [.setQuantity materialId newStock, .appendClientEntry entry, .upsertCosting snap])
      match t with
      | .din => proceed (currentStock + quantity)
      | .dout =>
        if currentStock < quantity then (.insufficientStock currentStock quantity, [])
        else proceed (currentStock - quantity)

/-- `clientStockAdjustmentAction` as a state transformer. -/
def clientStockAdjustmentAction (db : DB) (clientId materialId materialName : String)
    (quantity : ℚ) (t : Direction) (reason : String) : AdjResult × DB :=
  let r := clientStockAdjustmentWrites db clientId materialId materialName quantity t reason
  (r.1, applyWrites db r.2)

/-! ### GET `/api/clients/[clientId]/material-usage` -/

/-- One row of the usage response:
`{materialId, outQty, inQty, netQty: outQty - inQty}`. -/
structure UsageRow where
  materialId : String
  outQty : ℚ
  inQty : ℚ
  netQty : ℚ
deriving DecidableEq

/-- One line item of the material-usage route's fold: skip an empty
`materialId`, otherwise add the quantity to the entry's `outQty` (for an `out`
entry) or `inQty` (for an `in` entry). -/
def usagePairItem (t : Direction) (acc : List (String × ℚ × ℚ)) (it : EntryItem) :
    List (String × ℚ × ℚ) :=
  if it.materialId = "" then acc
  else
    let cur := mapGetD acc it.materialId (0, 0)
    let next := match t with
      | .dout => (cur.1 + it.quantity, cur.2)
      | .din => (cur.1, cur.2 + it.quantity)
    mapSet acc it.materialId next

/-- The usage fold of the material-usage route: per material, accumulate
`outQty` over `out` entries and `inQty` over `in` entries. -/
def usagePairStep (acc : List (String × ℚ × ℚ)) (e : ClientEntry) :
    List (String × ℚ × ℚ) :=
  e.materials.foldl (usagePairItem e.type) acc

/-- `GET material-usage`: fold the client's entries, then convert the map to
rows with `netQty = outQty - inQty`. -/
def computeUsage (entries : List ClientEntry) : List UsageRow :=
  (entries.foldl usagePairStep []).map (fun p => ⟨p.1, p.2.1, p.2.2, p.2.1 - p.2.2⟩)

/-! ### PUT `/api/client-costing/[clientId]` -/

/-- A line item of the PUT request body, after the route's `Number(...) || 0`
and `String(...) || ''` coercions.  The client also supplies `base`, `gst`
and `total` fields. -/
structure PutItem where
  materialId : String
  name : String
  qty : ℚ
  rate : ℚ
  gstPercent : ℚ
  base : ℚ
  gst : ℚ
  total : ℚ
deriving DecidableEq

/-- The server-side recomputation of one PUT line: `base = qty * rate`,
`gst = base * (gstPercent / 100)`, `total = base + gst`; the client-supplied
`base`/`gst`/`total` fields are never read. -/
def putComputedItem (it : PutItem) : CostingItem :=
  let base := it.qty * it.rate
  let gst := base * (it.gstPercent / 100)
  { materialId := it.materialId, name := it.name, qty := it.qty, rate := it.rate,
    gstPercent := it.gstPercent, base, gst, total := base + gst }

/-- The document the PUT route upserts. -/
def putCosting (clientId : String) (items : List PutItem) : CostingSnapshot :=
  let computed := items.map putComputedItem
  let beforeTax := computed.foldl (fun s r => s + r.base) 0
  let gstSum := computed.foldl (fun s r => s + r.gst) 0
  { clientId, items := computed, beforeTax, gst := gstSum, grand := beforeTax + gstSum }

/-- The PUT route's effect on the database (`findOneAndUpdate` with upsert). -/
def putCostingAction (db : DB) (clientId : String) (items : List PutItem) : DB :=
  { db with clientCosting := upsertCostingIn db.clientCosting (putCosting clientId items) }

/-! ### `adjustMaterialQuantity`, `setMaterialQuantity`, `fillStockAction` -/

/-- The outcome of the quick delta adjustment. -/
inductive QuickResult
  | invalid
  | notFound
  | ok (newQuantity : ℚ)
deriving DecidableEq

/-- `adjustMaterialQuantity`: clamp the new quantity at zero
(`Math.max(0, material.quantity + adjustment)`), update the stock, and insert
a batch history record only when the adjustment is an increase. -/
def adjustMaterialQuantity (db : DB) (materialId : String) (adjustment : ℚ) :
    QuickResult × DB :=
  match findMaterial db materialId with
  | none => (.notFound, db)
  | some material =>
    let newQuantity := max 0 (material.quantity + adjustment)
    let db1 := { db with materials := setQuantityIn db.materials materialId newQuantity }
    let db2 :=
      if 0 < adjustment then
        { db1 with stockHistory := db1.stockHistory ++
            [.batch ⟨[⟨materialId, material.name, adjustment⟩], adjustment⟩] }
      else db1
    (.ok newQuantity, db2)

/-- `adjustMaterialQuantityAction`: the FormData wrapper's guard
(`!materialId || !Number.isFinite(adjustment)`; rationals are always finite)
followed by `adjustMaterialQuantity`. -/
def adjustMaterialQuantityAction (db : DB) (materialId : String) (adjustment : ℚ) :
    QuickResult × DB :=
  if materialId = "" then (.invalid, db)
  else adjustMaterialQuantity db materialId adjustment

/-- The outcome of the absolute set. -/
inductive SetResult
  | invalid
  | notFound
  | ok
deriving DecidableEq

/-- `setMaterialQuantity`: reject an empty id or a negative quantity before any
read, then store `Math.floor(newQuantity)`. -/
def setMaterialQuantity (db : DB) (materialId : String) (newQuantity : ℚ) :
    SetResult × DB :=
  if materialId = "" ∨ newQuantity < 0 then (.invalid, db)
  else
    match findMaterial db materialId with
    | none => (.notFound, db)
    | some _ =>
      (.ok, { db with materials := setQuantityIn db.materials materialId ((⌊newQuantity⌋ : ℤ) : ℚ) })

/-- The outcome of the fill-stock batch. -/
inductive FillResult
  | invalid
  | ok
deriving DecidableEq

/-- One iteration of the fill-stock loop: a pair with `quantityToAdd > 0` whose
material exists gets its quantity increased and contributes one history line
item and its quantity to the running total; any other pair is skipped. -/
def fillStockStep (acc : DB × List StockHistoryItem × ℚ) (p : String × ℚ) :
    DB × List StockHistoryItem × ℚ :=
  if 0 < p.2 then
    match findMaterial acc.1 p.1 with
    | some material =>
      ({ acc.1 with materials := setQuantityIn acc.1.materials p.1 (material.quantity + p.2) },
       acc.2.1 ++ [⟨p.1, material.name, p.2⟩], acc.2.2 + p.2)
    | none => acc
  else acc

/-- `fillStockAction`: validate every quantity as a non-negative integer
(`z.record(z.coerce.number().int().min(0))`), run the loop over the
`{materialId → quantityToAdd}` pairs (object keys, hence distinct), and insert
one consolidated batch history record when at least one line item was
produced.  The action reports success either way. -/
def fillStockAction (db : DB) (pairs : List (String × ℚ)) : FillResult × DB :=
  if ¬ (∀ p ∈ pairs, IntAtLeast p.2 0) then (.invalid, db)
  else
    let r := pairs.foldl fillStockStep (db, [], 0)
    let db2 :=
      if r.2.1 = [] then r.1
      else { r.1 with stockHistory := r.1.stockHistory ++ [.batch ⟨r.2.1, r.2.2⟩] }
    (.ok, db2)

/-! ### The stock-mutating operations as one step relation -/

/-- A stock-mutating operation, as invoked from the UI. -/
inductive Op
  | stockAdj (materialId materialName : String) (quantity : ℚ) (t : Direction) (reason : String)
  | clientAdj (clientId materialId materialName : String) (quantity : ℚ) (t : Direction)
      (reason : String)
  | quickAdj (materialId : String) (adjustment : ℚ)
  | setQty (materialId : String) (newQuantity : ℚ)
  | fill (pairs : List (String × ℚ))

/-- The database effect of one operation. -/
def applyOp (db : DB) : Op → DB
  | .stockAdj materialId materialName q t reason =>
    (stockAdjustmentAction db materialId materialName q t reason).2
  | .clientAdj clientId materialId materialName q t reason =>
    (clientStockAdjustmentAction db clientId materialId materialName q t reason).2
  | .quickAdj materialId adjustment => (adjustMaterialQuantityAction db materialId adjustment).2
  | .setQty materialId newQuantity => (setMaterialQuantity db materialId newQuantity).2
  | .fill pairs => (fillStockAction db pairs).2

/-- Every material's quantity is non-negative. -/
def NonnegStock (db : DB) : Prop := ∀ m ∈ db.materials, 0 ≤ m.quantity

/-! ### `StockAdjustmentModal` (client side) -/

/-- `maxInQty = clientId ? Math.max(0, currentOutQty - currentInQty) : Infinity`,
client-present case. -/
def maxInQty (currentOutQty currentInQty : ℚ) : ℚ := max 0 (currentOutQty - currentInQty)

/-- The `disabled` expression of the return (`in`) submit button when a
`clientId` is present:
`Number(quantity || 0) < 1 || maxInQty === 0 || Number(quantity || 0) > maxInQty`. -/
def inSubmitDisabled (quantity maxIn : ℚ) : Bool :=
  decide (quantity < 1) || (decide (maxIn = 0) || decide (maxIn < quantity))

/-! ### Example fixtures used by witnesses -/

/-- Example material A: quantity 10, price-per-piece 2, GST 18%. -/
def exA : Material := ⟨"A", "Alpha", 10, 2, 0, 0, 18⟩

/-- Example material B: quantity 0, price-per-meter 3, GST 5%. -/
def exB : Material := ⟨"B", "Beta", 0, 0, 3, 0, 5⟩

/-- Example database holding materials A and B and nothing else. -/
def exDB : DB := ⟨[exA, exB], [], [], []⟩

/-! ### Statement-side definitions -/

/-- Keys are unique. -/
def NodupKeys (m : List (String × α)) : Prop := (m.map Prod.fst).Nodup

/-- Two PUT line items that agree on the server-trusted fields
(`materialId`, `name`, `qty`, `rate`, `gstPercent`) but may differ in the
client-supplied `base`, `gst`, `total`. -/
def PutAgree (a b : PutItem) : Prop :=
  a.materialId = b.materialId ∧ a.name = b.name ∧ a.qty = b.qty ∧ a.rate = b.rate ∧
    a.gstPercent = b.gstPercent

/-- The quantity stored for a material id, if any. -/
def quantityOf (db : DB) (materialId : String) : Option ℚ :=
  (findMaterial db materialId).map (·.quantity)

/-- The total quantity of the line items of `items` that name `materialId`. -/
def itemsSum (items : List EntryItem) (materialId : String) : ℚ :=
  ((items.filter (fun it => it.materialId == materialId)).map (·.quantity)).sum

/-- The contribution of one ledger entry to `Σout` for a material. -/
def outContrib (materialId : String) (e : ClientEntry) : ℚ :=
  match e.type with
  | .dout => itemsSum e.materials materialId
  | .din => 0

/-- The contribution of one ledger entry to `Σin` for a material. -/
def inContrib (materialId : String) (e : ClientEntry) : ℚ :=
  match e.type with
  | .din => itemsSum e.materials materialId
  | .dout => 0

/-- `Σout`: the sum of all `out` line-item quantities for a material across a
client's ledger. -/
def outSum (entries : List ClientEntry) (materialId : String) : ℚ :=
  (entries.map (outContrib materialId)).sum

/-- `Σin`: the sum of all `in` line-item quantities for a material across a
client's ledger. -/
def inSum (entries : List ClientEntry) (materialId : String) : ℚ :=
  (entries.map (inContrib materialId)).sum

/-- The material appears in some line item of the ledger. -/
def OccursIn (entries : List ClientEntry) (materialId : String) : Prop :=
  ∃ e ∈ entries, ∃ it ∈ e.materials, it.materialId = materialId

instance (entries : List ClientEntry) (materialId : String) :
    Decidable (OccursIn entries materialId) := by
  unfold OccursIn; infer_instance

/-- Find the usage row of a material in the usage response. -/
def usageLookup (rows : List UsageRow) (materialId : String) : Option UsageRow :=
  match rows with
  | [] => none
  | r :: rest => if r.materialId = materialId then some r else usageLookup rest materialId

/-- An example ledger entry: client c1 returned 5 of material A. -/
def exEntryIn : ClientEntry := ⟨"c1", .din, [⟨"A", "Alpha", 5⟩], ""⟩

/-- An example ledger entry: client c1 was dispatched 10 of material A. -/
def exEntryOut : ClientEntry := ⟨"c1", .dout, [⟨"A", "Alpha", 10⟩], ""⟩

/-! ### Association-list lemmas -/

theorem mapGetD_set_self (m : List (String × α)) (k : String) (v d : α) :
    mapGetD (mapSet m k v) k d = v := by
  induction m with
  | nil => simp [mapSet, mapGetD]
  | cons p rest ih =>
    by_cases h : p.1 = k
    · simp [mapSet, if_pos h, mapGetD]
    · simp only [mapSet, if_neg h, mapGetD]
      exact ih

theorem mapGetD_set_ne (m : List (String × α)) (k k' : String) (v d : α) (h : k ≠ k') :
    mapGetD (mapSet m k v) k' d = mapGetD m k' d := by
  induction m with
  | nil => simp [mapSet, mapGetD, if_neg h]
  | cons p rest ih =>
    by_cases hp : p.1 = k
    · have hpk' : ¬ p.1 = k' := fun hx => h (hp ▸ hx)
      simp only [mapSet, if_pos hp, mapGetD]
      rw [if_neg (fun hx => h hx), if_neg hpk']
    · simp only [mapSet, if_neg hp, mapGetD]
      by_cases hp' : p.1 = k'
      · rw [if_pos hp', if_pos hp']
      · rw [if_neg hp', if_neg hp']
        exact ih

theorem isKey_iff_mem_keys (m : List (String × α)) (k : String) :
    isKey m k = true ↔ k ∈ m.map Prod.fst := by
  induction m with
  | nil => simp [isKey]
  | cons p rest ih =>
    by_cases hp : p.1 = k
    · simp [isKey, hp]
    · simp only [isKey, List.map_cons, List.mem_cons]
      rw [decide_eq_false hp]
      simp only [Bool.false_or, ih]
      constructor
      · exact fun h => Or.inr h
      · rintro (h | h)
        · exact absurd h.symm hp
        · exact h

theorem keys_mapSet (m : List (String × α)) (k : String) (v : α) :
    (mapSet m k v).map Prod.fst =
      if isKey m k = true then m.map Prod.fst else m.map Prod.fst ++ [k] := by
  induction m with
  | nil => simp [mapSet, isKey]
  | cons p rest ih =>
    by_cases hp : p.1 = k
    · simp [mapSet, if_pos hp, isKey, hp]
    · simp only [mapSet, if_neg hp, List.map_cons, ih, isKey]
      rw [decide_eq_false hp]
      simp only [Bool.false_or]
      by_cases hk : isKey rest k = true
      · simp [hk]
      · simp [hk]

theorem nodupKeys_mapSet (m : List (String × α)) (k : String) (v : α)
    (h : NodupKeys m) : NodupKeys (mapSet m k v) := by
  unfold NodupKeys at *
  rw [keys_mapSet]
  by_cases hk : isKey m k = true
  · simpa [hk] using h
  · rw [if_neg hk]
    refine h.append (List.nodup_singleton k) ?_
    intro a ha hb
    rcases List.mem_singleton.mp hb with rfl
    exact hk ((isKey_iff_mem_keys m a).mpr ha)

theorem mem_iff_getD (m : List (String × α)) (k : String) (v d : α) (h : NodupKeys m) :
    (k, v) ∈ m ↔ (isKey m k = true ∧ v = mapGetD m k d) := by
  induction m with
  | nil => simp [isKey]
  | cons p rest ih =>
    rcases List.nodup_cons.mp h with ⟨hp, hrest⟩
    by_cases hpk : p.1 = k
    · simp only [isKey, mapGetD, if_pos hpk]
      rw [decide_eq_true hpk]
      simp only [Bool.true_or, true_and, List.mem_cons]
      constructor
      · rintro (h1 | h1)
        · exact congrArg Prod.snd h1
        · exact absurd (List.mem_map.mpr ⟨(k, v), h1, rfl⟩) (hpk ▸ hp)
      · rintro rfl
        left
        cases p
        simp at hpk ⊢
        exact hpk.symm
    · simp only [isKey, mapGetD, if_neg hpk]
      rw [decide_eq_false hpk]
      simp only [Bool.false_or, List.mem_cons]
      rw [← ih hrest]
      constructor
      · rintro (h1 | h1)
        · exact absurd (congrArg Prod.fst h1.symm) hpk
        · exact h1
      · exact fun h1 => Or.inr h1

/-! ### `setQuantityIn` and `findMaterial` lemmas -/

theorem setQuantityIn_of_find?_none (ms : List Material) (materialId : String) (q : ℚ)
    (h : ms.find? (fun m => m.id == materialId) = none) :
    setQuantityIn ms materialId q = ms := by
  induction ms with
  | nil => simp [setQuantityIn]
  | cons m rest ih =>
    rw [List.find?_cons] at h
    split at h
    · exact absurd h (by simp)
    · next heq =>
      have hm : ¬ m.id = materialId := by simpa using heq
      simp [setQuantityIn, hm, ih h]

theorem find?_setQuantityIn_same (ms : List Material) (materialId : String) (q : ℚ)
    (m : Material) (h : ms.find? (fun m => m.id == materialId) = some m) :
    (setQuantityIn ms materialId q).find? (fun m => m.id == materialId)
      = some { m with quantity := q } := by
  induction ms with
  | nil => simp at h
  | cons m0 rest ih =>
    by_cases hm : m0.id = materialId
    · rw [List.find?_cons_of_pos _ (by simpa using hm)] at h
      injection h with h0
      subst h0
      simp only [setQuantityIn, if_pos hm]
      exact List.find?_cons_of_pos _ (by simpa using hm)
    · rw [List.find?_cons_of_neg _ (by simpa using hm)] at h
      simp only [setQuantityIn, if_neg hm]
      rw [List.find?_cons_of_neg _ (by simpa using hm)]
      exact ih h

theorem find?_setQuantityIn_ne (ms : List Material) (materialId other : String) (q : ℚ)
    (h : materialId ≠ other) :
    (setQuantityIn ms materialId q).find? (fun m => m.id == other)
      = ms.find? (fun m => m.id == other) := by
  induction ms with
  | nil => simp [setQuantityIn]
  | cons m0 rest ih =>
    by_cases hm : m0.id = materialId
    · have hno : ¬ m0.id = other := fun hx => h (hm ▸ hx)
      simp only [setQuantityIn, if_pos hm]
      rw [List.find?_cons_of_neg _ (by simpa using hno),
        List.find?_cons_of_neg _ (by simpa using hno)]
    · simp only [setQuantityIn, if_neg hm]
      by_cases ho : m0.id = other
      · rw [List.find?_cons_of_pos _ (by simpa using ho),
          List.find?_cons_of_pos _ (by simpa using ho)]
      · rw [List.find?_cons_of_neg _ (by simpa using ho),
          List.find?_cons_of_neg _ (by simpa using ho)]
        exact ih

/-! ### Claim C1 -/

/-- Claim C1: for a material with current stock `S`, a validated `out`
adjustment with quantity `q > S` fails with the insufficient-stock error
reporting `available = S` and `requested = q`, and performs no write: the
database (material quantity and stock history included) is unchanged. -/
theorem stockAdjustment_out_insufficient (db : DB) (materialId materialName reason : String)
    (q : ℚ) (m : Material) (hmid : materialId ≠ "") (hmname : materialName ≠ "")
    (hq : IntAtLeast q 1) (hfind : findMaterial db materialId = some m)
    (hover : m.quantity < q) :
    stockAdjustmentAction db materialId materialName q .dout reason
      = (.insufficientStock m.quantity q, db) := by
  simp only [stockAdjustmentAction, stockAdjustmentWrites, hfind]
  rw [if_neg (by simp [hmid, hmname, hq])]
  simp [if_pos hover, applyWrites]

/-- Witness for C1: material A holds 10 units; requesting 50 out is rejected
with available 10, requested 50, and the database is untouched. -/
theorem stockAdjustment_out_insufficient_witness :
    stockAdjustmentAction exDB "A" "Alpha" 50 .dout "" = (.insufficientStock 10 50, exDB) := by
  have h := stockAdjustment_out_insufficient exDB "A" "Alpha" "" 50 exA (by decide) (by decide)
    (by norm_num [IntAtLeast]) (by rfl) (by norm_num [exA])
  simpa [exA] using h

/-! ### Claim C9 -/

/-- Claim C9: for an existing material, `adjustMaterialQuantity` always
succeeds, sets the quantity to `max 0 (current + adjustment)` (a decrement
below zero is silently clamped, never rejected), and appends a stock-history
record if and only if the adjustment is positive. -/
theorem adjustQuantity_clamped_history_iff_positive (db : DB) (materialId : String)
    (adjustment : ℚ) (m : Material) (hfind : findMaterial db materialId = some m) :
    adjustMaterialQuantity db materialId adjustment =
      (.ok (max 0 (m.quantity + adjustment)),
       { db with
         materials := setQuantityIn db.materials materialId (max 0 (m.quantity + adjustment)),
         stockHistory :=
           if 0 < adjustment then
             db.stockHistory ++ [.batch ⟨[⟨materialId, m.name, adjustment⟩], adjustment⟩]
           else db.stockHistory }) := by
  simp only [adjustMaterialQuantity, hfind]
  by_cases h : 0 < adjustment <;> simp [h]

/-- Witness for C9: removing 50 from material A (stock 10) succeeds, clamps
the quantity to 0, and appends no history record. -/
theorem adjustQuantity_clamped_witness :
    adjustMaterialQuantity exDB "A" (-50) = (.ok 0, { exDB with
      materials := setQuantityIn exDB.materials "A" 0 }) := by
  have h := adjustQuantity_clamped_history_iff_positive exDB "A" (-50) exA (by rfl)
  rw [h]
  norm_num [exA]

/-! ### Claim C4 -/

/-- Counterexample to C4 as stated: both multi-record operations — the
two-write `stockAdjustmentAction` (stock update + history append) and the
three-write `clientStockAdjustmentAction` (stock update + ledger append +
costing upsert) — issue their writes as separate sequential awaits with no
enclosing transaction, so stopping after the first write reaches a state that
is neither the initial one ("none applied") nor the final one
("all applied") — a partial record is possible in each. -/
theorem multiwrite_not_atomic_cex :
    (applyWrites exDB ((stockAdjustmentWrites exDB "A" "Alpha" 5 .dout "").2.take 1) ≠ exDB ∧
     applyWrites exDB ((stockAdjustmentWrites exDB "A" "Alpha" 5 .dout "").2.take 1)
       ≠ applyWrites exDB (stockAdjustmentWrites exDB "A" "Alpha" 5 .dout "").2) ∧
    (applyWrites exDB
        ((clientStockAdjustmentWrites exDB "c1" "A" "Alpha" 5 .dout "").2.take 1) ≠ exDB ∧
     applyWrites exDB ((clientStockAdjustmentWrites exDB "c1" "A" "Alpha" 5 .dout "").2.take 1)
       ≠ applyWrites exDB (clientStockAdjustmentWrites exDB "c1" "A" "Alpha" 5 .dout "").2) := by
  refine ⟨⟨?_, ?_⟩, ?_, ?_⟩ <;>
    norm_num +decide [stockAdjustmentWrites, clientStockAdjustmentWrites, findMaterial,
      exDB, exA, exB, IntAtLeast, applyWrites, applyWrite, setQuantityIn, upsertCostingIn,
      defaultedReason, DB.mk.injEq, Material.mk.injEq]

/-- Claim C4 amended: neither multi-record operation is transactional — the
two-write `stockAdjustmentAction` and the three-write
`clientStockAdjustmentAction` apply their writes one at a time, with the stock
update first, so stopping after it leaves the quantity changed while the
history record, the ledger entry and the costing snapshot are still missing;
only the guarding checks run before the first write, so a rejected `out`
performs no write at all in either operation. -/
theorem multiwrite_sequential_guard_before_writes (db : DB)
    (clientId materialId materialName reason : String) (q : ℚ) (m : Material)
    (hcid : clientId ≠ "") (hmid : materialId ≠ "") (hmname : materialName ≠ "")
    (hq : IntAtLeast q 1) (hfind : findMaterial db materialId = some m) :
    (m.quantity < q →
      stockAdjustmentWrites db materialId materialName q .dout reason
        = (.insufficientStock m.quantity q, [])) ∧
    (q ≤ m.quantity →
      (stockAdjustmentWrites db materialId materialName q .dout reason).2
        = [.setQuantity materialId (m.quantity - q),
           .appendHistory (.adj ⟨materialId, materialName, .dout, q, m.quantity, m.quantity - q,
             defaultedReason reason .dout "Stock Added" "Stock Removed"⟩)] ∧
      (applyWrites db
          ((stockAdjustmentWrites db materialId materialName q .dout reason).2.take 1)).materials
        = setQuantityIn db.materials materialId (m.quantity - q) ∧
      (applyWrites db
          ((stockAdjustmentWrites db materialId materialName q .dout reason).2.take 1)).stockHistory
        = db.stockHistory) ∧
    (m.quantity < q →
      clientStockAdjustmentWrites db clientId materialId materialName q .dout reason
        = (.insufficientStock m.quantity q, [])) ∧
    (q ≤ m.quantity →
      (clientStockAdjustmentWrites db clientId materialId materialName q .dout reason).2
        = [.setQuantity materialId (m.quantity - q),
           .appendClientEntry ⟨clientId, .dout, [⟨materialId, materialName, q⟩],
             defaultedReason reason .dout "Client Return" "Client Dispatch"⟩,
           .upsertCosting (computeCostingSnapshot true clientId
             (setQuantityIn db.materials materialId (m.quantity - q))
             ((db.clientEntries ++ [(⟨clientId, .dout, [⟨materialId, materialName, q⟩],
                 defaultedReason reason .dout "Client Return" "Client Dispatch"⟩ :
                   ClientEntry)]).filter
               (fun e => e.clientId == clientId)))] ∧
      (applyWrites db ((clientStockAdjustmentWrites db clientId materialId materialName q
          .dout reason).2.take 1)).materials
        = setQuantityIn db.materials materialId (m.quantity - q) ∧
      (applyWrites db ((clientStockAdjustmentWrites db clientId materialId materialName q
          .dout reason).2.take 1)).clientEntries = db.clientEntries ∧
      (applyWrites db ((clientStockAdjustmentWrites db clientId materialId materialName q
          .dout reason).2.take 1)).clientCosting = db.clientCosting ∧
      (applyWrites db ((clientStockAdjustmentWrites db clientId materialId materialName q
          .dout reason).2.take 1)).stockHistory = db.stockHistory) := by
  refine ⟨?_, ?_, ?_, ?_⟩
  · intro hover
    simp only [stockAdjustmentWrites, hfind]
    rw [if_neg (by simp [hmid, hmname, hq])]
    simp [if_pos hover]
  · intro hle
    have hnot : ¬ m.quantity < q := not_lt.mpr hle
    simp only [stockAdjustmentWrites, hfind]
    rw [if_neg (by simp [hmid, hmname, hq])]
    simp [if_neg hnot, applyWrites, applyWrite]
  · intro hover
    simp only [clientStockAdjustmentWrites, hfind]
    rw [if_neg (by simp [hcid, hmid, hmname, hq])]
    simp [if_pos hover]
  · intro hle
    have hnot : ¬ m.quantity < q := not_lt.mpr hle
    simp only [clientStockAdjustmentWrites, hfind]
    rw [if_neg (by simp [hcid, hmid, hmname, hq])]
    simp [if_neg hnot, applyWrites, applyWrite]

/-- Witness for the amended C4: removing 5 of material A (stock 10) through
either operation issues the stock write first; after it alone, stock is 5 but
the history, the client ledger and the costing collection are untouched. -/
theorem multiwrite_sequential_witness :
    (applyWrites exDB
        ((stockAdjustmentWrites exDB "A" "Alpha" 5 .dout "").2.take 1)).materials
      = setQuantityIn exDB.materials "A" 5 ∧
    (applyWrites exDB
        ((stockAdjustmentWrites exDB "A" "Alpha" 5 .dout "").2.take 1)).stockHistory
      = exDB.stockHistory ∧
    (applyWrites exDB
        ((clientStockAdjustmentWrites exDB "c1" "A" "Alpha" 5 .dout "").2.take 1)).materials
      = setQuantityIn exDB.materials "A" 5 ∧
    (applyWrites exDB
        ((clientStockAdjustmentWrites exDB "c1" "A" "Alpha" 5 .dout "").2.take 1)).clientEntries
      = exDB.clientEntries ∧
    (applyWrites exDB
        ((clientStockAdjustmentWrites exDB "c1" "A" "Alpha" 5 .dout "").2.take 1)).clientCosting
      = exDB.clientCosting ∧
    (applyWrites exDB
        ((clientStockAdjustmentWrites exDB "c1" "A" "Alpha" 5 .dout "").2.take 1)).stockHistory
      = exDB.stockHistory := by
  have h := multiwrite_sequential_guard_before_writes exDB "c1" "A" "Alpha" "" 5 exA
    (by decide) (by decide) (by decide) (by norm_num [IntAtLeast]) (by rfl)
  have h2 := h.2.1 (by norm_num [exA])
  have h4 := h.2.2.2 (by norm_num [exA])
  have hm2 := h2.2.1
  have hm4 := h4.2.1
  norm_num [exA] at hm2 hm4
  exact ⟨hm2, h2.2.2, hm4, h4.2.2.1, h4.2.2.2.1, h4.2.2.2.2⟩

/-! ### Claim C2 -/

/-- Counterexample to C2 as stated: client c1 has an empty ledger, so its net
usage of material A is `Σout − Σin = 0`; yet a return (`in`) of 5 is accepted
by `clientStockAdjustmentAction` — it reports success, raises the global
stock, and appends a ledger entry, instead of failing with an over-return
error and leaving the state unchanged. -/
theorem clientReturn_over_net_accepted_cex :
    exDB.clientEntries = [] ∧
    (clientStockAdjustmentAction exDB "c1" "A" "Alpha" 5 .din "").1 = .ok 15 ∧
    (clientStockAdjustmentAction exDB "c1" "A" "Alpha" 5 .din "").2.materials
      ≠ exDB.materials ∧
    (clientStockAdjustmentAction exDB "c1" "A" "Alpha" 5 .din "").2.clientEntries
      ≠ exDB.clientEntries := by
  refine ⟨rfl, ?_, ?_, ?_⟩ <;>
    norm_num +decide [clientStockAdjustmentAction, clientStockAdjustmentWrites, findMaterial,
      exDB, exA, exB, IntAtLeast, applyWrites, applyWrite, setQuantityIn, defaultedReason,
      Material.mk.injEq]

/-- Claim C2 amended: the over-return cap exists only client-side — the
`StockAdjustmentModal` computes `maxInQty = max(0, Σout − Σin)` and disables
the return submit button when the requested quantity exceeds it — while the
server action itself accepts any `in` quantity, increasing global stock by
`q` and appending the ledger entry. -/
theorem clientReturn_over_net_ui_guard_only (db : DB)
    (clientId materialId materialName reason : String) (q currentOut currentIn : ℚ)
    (m : Material) (hcid : clientId ≠ "") (hmid : materialId ≠ "") (hmname : materialName ≠ "")
    (hq : IntAtLeast q 1) (hfind : findMaterial db materialId = some m)
    (hover : maxInQty currentOut currentIn < q) :
    inSubmitDisabled q (maxInQty currentOut currentIn) = true ∧
    (clientStockAdjustmentAction db clientId materialId materialName q .din reason).1
      = .ok (m.quantity + q) ∧
    (clientStockAdjustmentAction db clientId materialId materialName q .din reason).2.materials
      = setQuantityIn db.materials materialId (m.quantity + q) ∧
    (clientStockAdjustmentAction db clientId materialId materialName q .din reason).2.clientEntries
      = db.clientEntries ++
        [⟨clientId, .din, [⟨materialId, materialName, q⟩],
          defaultedReason reason .din "Client Return" "Client Dispatch"⟩] := by
  refine ⟨?_, ?_⟩
  · simp [inSubmitDisabled, hover]
  · simp only [clientStockAdjustmentAction, clientStockAdjustmentWrites, hfind]
    rw [if_neg (by simp [hcid, hmid, hmname, hq])]
    simp [applyWrites, applyWrite]

/-- Witness for the amended C2: client out 3, in 1 ⇒ max returnable 2; a
return of 5 disables the modal's submit button, yet the server action accepts
it, setting stock to 15 and appending the entry. -/
theorem clientReturn_over_net_witness :
    inSubmitDisabled 5 (maxInQty 3 1) = true ∧
    (clientStockAdjustmentAction exDB "c1" "A" "Alpha" 5 .din "").1 = .ok 15 ∧
    (clientStockAdjustmentAction exDB "c1" "A" "Alpha" 5 .din "").2.materials
      = setQuantityIn exDB.materials "A" 15 ∧
    (clientStockAdjustmentAction exDB "c1" "A" "Alpha" 5 .din "").2.clientEntries
      = exDB.clientEntries ++ [⟨"c1", .din, [⟨"A", "Alpha", 5⟩], "Client Return"⟩] := by
  have h := clientReturn_over_net_ui_guard_only exDB "c1" "A" "Alpha" "" 5 3 1 exA
    (by decide) (by decide) (by decide) (by norm_num [IntAtLeast]) (by rfl)
    (by norm_num [maxInQty])
  norm_num [exA, defaultedReason] at h
  exact h

/-! ### Claim C8 -/

theorem putComputedItem_agree (a b : PutItem) (h : PutAgree a b) :
    putComputedItem a = putComputedItem b := by
  obtain ⟨h1, h2, h3, h4, h5⟩ := h
  simp [putComputedItem, h1, h2, h3, h4, h5]

/-- Claim C8: the PUT costing route recomputes `base`, `gst`, `total` and the
aggregates server-side from `qty`, `rate`, `gstPercent` only; two request
bodies agreeing on those fields store the identical snapshot regardless of
their client-supplied totals. -/
theorem putCosting_ignores_client_totals (db : DB) (clientId : String)
    (items1 items2 : List PutItem) (h : List.Forall₂ PutAgree items1 items2) :
    putCosting clientId items1 = putCosting clientId items2 ∧
    putCostingAction db clientId items1 = putCostingAction db clientId items2 := by
  have hmap : items1.map putComputedItem = items2.map putComputedItem := by
    induction h with
    | nil => rfl
    | cons hab _ ih => simp [List.map_cons, ih, putComputedItem_agree _ _ hab]
  constructor
  · simp [putCosting, hmap]
  · simp [putCostingAction, putCosting, hmap]

/-- Witness for C8: two one-line bodies with equal qty/rate/GST but wildly
different client-supplied totals produce the same stored snapshot. -/
theorem putCosting_ignores_client_totals_witness :
    putCosting "c1" [⟨"A", "Alpha", 2, 10, 5, 999, 999, 999⟩]
      = putCosting "c1" [⟨"A", "Alpha", 2, 10, 5, 0, 0, 0⟩] :=
  (putCosting_ignores_client_totals exDB "c1"
    [⟨"A", "Alpha", 2, 10, 5, 999, 999, 999⟩] [⟨"A", "Alpha", 2, 10, 5, 0, 0, 0⟩]
    (List.Forall₂.cons ⟨rfl, rfl, rfl, rfl, rfl⟩ List.Forall₂.nil)).1

/-! ### Claim C3 -/

theorem nonneg_setQuantityIn (ms : List Material) (materialId : String) (q : ℚ)
    (h : ∀ m ∈ ms, 0 ≤ m.quantity) (hq : 0 ≤ q) :
    ∀ m ∈ setQuantityIn ms materialId q, 0 ≤ m.quantity := by
  induction ms with
  | nil => simp [setQuantityIn]
  | cons m0 rest ih =>
    by_cases hm : m0.id = materialId
    · simp only [setQuantityIn, if_pos hm]
      intro x hx
      rcases List.mem_cons.mp hx with rfl | hx
      · exact hq
      · exact h x (List.mem_cons_of_mem _ hx)
    · simp only [setQuantityIn, if_neg hm]
      intro x hx
      rcases List.mem_cons.mp hx with rfl | hx
      · exact h x (List.mem_cons_self _ _)
      · exact ih (fun y hy => h y (List.mem_cons_of_mem _ hy)) x hx

theorem quantity_nonneg_of_findMaterial (db : DB) (materialId : String) (m : Material)
    (hfind : findMaterial db materialId = some m) (h : NonnegStock db) : 0 ≤ m.quantity :=
  h m (List.mem_of_find?_eq_some hfind)

/-- The `materials` collection after `stockAdjustmentAction`: unchanged, or set
to a value derived from the found material under the guard. -/
theorem stockAdjustmentAction_materials_cases (db : DB)
    (materialId materialName reason : String) (q : ℚ) (t : Direction) :
    (stockAdjustmentAction db materialId materialName q t reason).2.materials = db.materials ∨
    ∃ m : Material, findMaterial db materialId = some m ∧ IntAtLeast q 1 ∧
      ((t = .din ∧ (stockAdjustmentAction db materialId materialName q t reason).2.materials
          = setQuantityIn db.materials materialId (m.quantity + q)) ∨
       (t = .dout ∧ q ≤ m.quantity ∧
        (stockAdjustmentAction db materialId materialName q t reason).2.materials
          = setQuantityIn db.materials materialId (m.quantity - q))) := by
  by_cases hval : (materialId = "" ∨ materialName = "" ∨ ¬ IntAtLeast q 1)
  · left
    simp [stockAdjustmentAction, stockAdjustmentWrites, if_pos hval, applyWrites]
  · have hval' := hval
    push_neg at hval'
    cases hfind : findMaterial db materialId with
    | none =>
      left
      simp [stockAdjustmentAction, stockAdjustmentWrites, if_neg hval, hfind, applyWrites]
    | some m =>
      cases t with
      | din =>
        right
        refine ⟨m, rfl, hval'.2.2, .inl ⟨rfl, ?_⟩⟩
        simp [stockAdjustmentAction, stockAdjustmentWrites, if_neg hval, hfind,
          applyWrites, applyWrite]
      | dout =>
        by_cases hlt : m.quantity < q
        · left
          simp [stockAdjustmentAction, stockAdjustmentWrites, if_neg hval, hfind,
            if_pos hlt, applyWrites]
        · right
          refine ⟨m, rfl, hval'.2.2, .inr ⟨rfl, not_lt.mp hlt, ?_⟩⟩
          simp [stockAdjustmentAction, stockAdjustmentWrites, if_neg hval, hfind,
            if_neg hlt, applyWrites, applyWrite]

/-- The `materials` collection after `clientStockAdjustmentAction`: same shape
as for `stockAdjustmentAction` (the extra ledger and costing writes do not
touch `materials`). -/
theorem clientStockAdjustmentAction_materials_cases (db : DB)
    (clientId materialId materialName reason : String) (q : ℚ) (t : Direction) :
    (clientStockAdjustmentAction db clientId materialId materialName q t reason).2.materials
        = db.materials ∨
    ∃ m : Material, findMaterial db materialId = some m ∧ IntAtLeast q 1 ∧
      ((t = .din ∧
        (clientStockAdjustmentAction db clientId materialId materialName q t reason).2.materials
          = setQuantityIn db.materials materialId (m.quantity + q)) ∨
       (t = .dout ∧ q ≤ m.quantity ∧
        (clientStockAdjustmentAction db clientId materialId materialName q t reason).2.materials
          = setQuantityIn db.materials materialId (m.quantity - q))) := by
  by_cases hval : (clientId = "" ∨ materialId = "" ∨ materialName = "" ∨ ¬ IntAtLeast q 1)
  · left
    simp [clientStockAdjustmentAction, clientStockAdjustmentWrites, if_pos hval, applyWrites]
  · have hval' := hval
    push_neg at hval'
    cases hfind : findMaterial db materialId with
    | none =>
      left
      simp [clientStockAdjustmentAction, clientStockAdjustmentWrites, if_neg hval, hfind,
        applyWrites]
    | some m =>
      cases t with
      | din =>
        right
        refine ⟨m, rfl, hval'.2.2.2, .inl ⟨rfl, ?_⟩⟩
        simp [clientStockAdjustmentAction, clientStockAdjustmentWrites, if_neg hval, hfind,
          applyWrites, applyWrite]
      | dout =>
        by_cases hlt : m.quantity < q
        · left
          simp [clientStockAdjustmentAction, clientStockAdjustmentWrites, if_neg hval, hfind,
            if_pos hlt, applyWrites]
        · right
          refine ⟨m, rfl, hval'.2.2.2, .inr ⟨rfl, not_lt.mp hlt, ?_⟩⟩
          simp [clientStockAdjustmentAction, clientStockAdjustmentWrites, if_neg hval, hfind,
            if_neg hlt, applyWrites, applyWrite]

theorem fillLoop_nonneg (pairs : List (String × ℚ)) :
    ∀ acc : DB × List StockHistoryItem × ℚ, NonnegStock acc.1 → (∀ p ∈ pairs, 0 ≤ p.2) →
    NonnegStock (pairs.foldl fillStockStep acc).1 := by
  induction pairs with
  | nil => intro acc hacc _; simpa using hacc
  | cons p rest ih =>
    intro acc hacc hall
    simp only [List.foldl_cons]
    refine ih _ ?_ (fun x hx => hall x (List.mem_cons_of_mem _ hx))
    by_cases hpos : 0 < p.2
    · simp only [fillStockStep, if_pos hpos]
      cases hfind : findMaterial acc.1 p.1 with
      | none => simpa using hacc
      | some m =>
        simp only
        intro x hx
        exact nonneg_setQuantityIn acc.1.materials p.1 (m.quantity + p.2) hacc
          (add_nonneg (quantity_nonneg_of_findMaterial acc.1 p.1 m hfind hacc) hpos.le) x hx
    · simpa [fillStockStep, if_neg hpos] using hacc

theorem applyOp_nonneg (db : DB) (op : Op) (h : NonnegStock db) :
    NonnegStock (applyOp db op) := by
  cases op with
  | stockAdj materialId materialName q t reason =>
    rcases stockAdjustmentAction_materials_cases db materialId materialName reason q t with
      hcase | ⟨m, hfind, hq, hcase⟩
    · intro x hx; rw [applyOp, hcase] at hx; exact h x hx
    · have hm := quantity_nonneg_of_findMaterial db materialId m hfind h
      have h1 : (0 : ℚ) ≤ 1 := by norm_num
      rcases hcase with ⟨_, hmat⟩ | ⟨_, hle, hmat⟩
      · intro x hx; rw [applyOp, hmat] at hx
        exact nonneg_setQuantityIn db.materials materialId _ h
          (add_nonneg hm (le_trans h1 hq.2)) x hx
      · intro x hx; rw [applyOp, hmat] at hx
        exact nonneg_setQuantityIn db.materials materialId _ h (sub_nonneg.mpr hle) x hx
  | clientAdj clientId materialId materialName q t reason =>
    rcases clientStockAdjustmentAction_materials_cases db clientId materialId materialName
      reason q t with hcase | ⟨m, hfind, hq, hcase⟩
    · intro x hx; rw [applyOp, hcase] at hx; exact h x hx
    · have hm := quantity_nonneg_of_findMaterial db materialId m hfind h
      have h1 : (0 : ℚ) ≤ 1 := by norm_num
      rcases hcase with ⟨_, hmat⟩ | ⟨_, hle, hmat⟩
      · intro x hx; rw [applyOp, hmat] at hx
        exact nonneg_setQuantityIn db.materials materialId _ h
          (add_nonneg hm (le_trans h1 hq.2)) x hx
      · intro x hx; rw [applyOp, hmat] at hx
        exact nonneg_setQuantityIn db.materials materialId _ h (sub_nonneg.mpr hle) x hx
  | quickAdj materialId adjustment =>
    simp only [applyOp, adjustMaterialQuantityAction]
    by_cases hmid : materialId = ""
    · simpa [if_pos hmid] using h
    · rw [if_neg hmid]
      cases hfind : findMaterial db materialId with
      | none => simpa [adjustMaterialQuantity, hfind] using h
      | some m =>
        simp only [adjustMaterialQuantity, hfind]
        by_cases hpos : 0 < adjustment <;>
          · simp only [hpos, if_true, if_false]
            intro x hx
            simp only at hx
            exact nonneg_setQuantityIn db.materials materialId _ h (le_max_left _ _) x hx
  | setQty materialId newQuantity =>
    simp only [applyOp, setMaterialQuantity]
    by_cases hval : (materialId = "" ∨ newQuantity < 0)
    · simpa [if_pos hval] using h
    · rw [if_neg hval]
      push_neg at hval
      cases hfind : findMaterial db materialId with
      | none => simpa [hfind] using h
      | some m =>
        simp only [hfind]
        intro x hx
        simp only at hx
        refine nonneg_setQuantityIn db.materials materialId _ h ?_ x hx
        exact_mod_cast Int.le_floor.mpr (by exact_mod_cast hval.2)
  | fill pairs =>
    simp only [applyOp, fillStockAction]
    by_cases hval : (∀ p ∈ pairs, IntAtLeast p.2 0)
    · rw [if_neg (by simpa using hval)]
      have hloop := fillLoop_nonneg pairs (db, [], 0) h (fun p hp => (hval p hp).2)
      by_cases hempty : (pairs.foldl fillStockStep (db, [], 0)).2.1 = []
      · simpa [if_pos hempty] using hloop
      · simpa [if_neg hempty] using hloop
    · simpa [if_pos hval] using h

theorem applyOps_nonneg (ops : List Op) :
    ∀ db : DB, NonnegStock db → NonnegStock (ops.foldl applyOp db) := by
  induction ops with
  | nil => intro db h; simpa using h
  | cons op rest ih => intro db h; simpa using ih (applyOp db op) (applyOp_nonneg db op h)

/-- Claim C3: from any state with non-negative material quantities, every
stock-mutating operation — in/out adjustment, client dispatch/return, quick
delta adjustment, absolute set, fill-stock batch — preserves non-negativity,
and hence so does any sequence of them. -/
theorem ops_preserve_nonneg_stock (db : DB) (op : Op) (h : NonnegStock db) :
    NonnegStock (applyOp db op) ∧ ∀ ops : List Op, NonnegStock (ops.foldl applyOp db) :=
  ⟨applyOp_nonneg db op h, fun ops => applyOps_nonneg ops db h⟩

/-- Witness for C3: the example database has non-negative stock, and it stays
non-negative after a quick adjustment of −50 on material A. -/
theorem ops_preserve_nonneg_stock_witness :
    NonnegStock exDB ∧ NonnegStock (applyOp exDB (.quickAdj "A" (-50))) :=
  ⟨by norm_num [NonnegStock, exDB, exA, exB],
   (ops_preserve_nonneg_stock exDB (.quickAdj "A" (-50))
     (by norm_num [NonnegStock, exDB, exA, exB])).1⟩

/-! ### Claims C7 and C10 -/

theorem eq_of_mem_nodup_keys {β : Type _} (l : List (String × β))
    (h : (l.map Prod.fst).Nodup) (a b : String × β) (ha : a ∈ l) (hb : b ∈ l)
    (hk : a.1 = b.1) : a = b := by
  induction l with
  | nil => simp at ha
  | cons x rest ih =>
    rcases List.nodup_cons.mp h with ⟨hx, hrest⟩
    rcases List.mem_cons.mp ha with rfl | ha' <;> rcases List.mem_cons.mp hb with rfl | hb'
    · rfl
    · exact absurd (List.mem_map.mpr ⟨b, hb', hk.symm⟩) hx
    · exact absurd (List.mem_map.mpr ⟨a, ha', hk⟩) hx
    · exact ih hrest ha' hb'

/-- The fill-stock loop over pairs that are all positive and all resolve to an
existing material: quantities increase pairwise, untouched materials are
untouched, the other collections are untouched, and the accumulated line
items and running total extend accordingly. -/
theorem fillLoop_active (pairs : List (String × ℚ)) :
    ∀ (db0 : DB) (items0 : List StockHistoryItem) (t0 : ℚ),
    (pairs.map Prod.fst).Nodup → (∀ p ∈ pairs, 0 < p.2) →
    (∀ p ∈ pairs, (findMaterial db0 p.1).isSome) →
    (∀ p ∈ pairs, quantityOf (pairs.foldl fillStockStep (db0, items0, t0)).1 p.1
        = (quantityOf db0 p.1).map (· + p.2)) ∧
    (∀ mid : String, (∀ p ∈ pairs, p.1 ≠ mid) →
        findMaterial (pairs.foldl fillStockStep (db0, items0, t0)).1 mid
          = findMaterial db0 mid) ∧
    (pairs.foldl fillStockStep (db0, items0, t0)).1.stockHistory = db0.stockHistory ∧
    (pairs.foldl fillStockStep (db0, items0, t0)).2.1
      = items0 ++ pairs.map
          (fun p => ⟨p.1, ((findMaterial db0 p.1).map (·.name)).getD "", p.2⟩) ∧
    (pairs.foldl fillStockStep (db0, items0, t0)).2.2 = t0 + (pairs.map (·.2)).sum := by
  induction pairs with
  | nil =>
    intro db0 items0 t0 _ _ _
    refine ⟨by simp, fun mid _ => by simp, by simp, by simp, by simp⟩
  | cons p rest ih =>
    intro db0 items0 t0 hnodup hpos hex
    have hpmem : p ∈ p :: rest := List.mem_cons_self _ _
    obtain ⟨m, hfind⟩ := Option.isSome_iff_exists.mp (hex p hpmem)
    have hppos := hpos p hpmem
    have hstep : fillStockStep (db0, items0, t0) p =
        ({ db0 with materials := setQuantityIn db0.materials p.1 (m.quantity + p.2) },
         items0 ++ [⟨p.1, m.name, p.2⟩], t0 + p.2) := by
      simp [fillStockStep, if_pos hppos, hfind]
    rcases List.nodup_cons.mp hnodup with ⟨hpnot, hnodup'⟩
    have hkey : ∀ q ∈ rest, q.1 ≠ p.1 := by
      intro q hq hqk
      exact hpnot (List.mem_map.mpr ⟨q, hq, hqk⟩)
    set db1 : DB :=
      { db0 with materials := setQuantityIn db0.materials p.1 (m.quantity + p.2) } with hdb1
    have hfind1_ne : ∀ x : String, x ≠ p.1 → findMaterial db1 x = findMaterial db0 x := by
      intro x hx
      exact find?_setQuantityIn_ne db0.materials p.1 x (m.quantity + p.2) (fun hy => hx hy.symm)
    have hfind1_eq : findMaterial db1 p.1 = some { m with quantity := m.quantity + p.2 } :=
      find?_setQuantityIn_same db0.materials p.1 (m.quantity + p.2) m hfind
    have hex' : ∀ q ∈ rest, (findMaterial db1 q.1).isSome := by
      intro q hq
      rw [hfind1_ne q.1 (hkey q hq)]
      exact hex q (List.mem_cons_of_mem _ hq)
    have hihx := ih db1 (items0 ++ [⟨p.1, m.name, p.2⟩]) (t0 + p.2) hnodup'
      (fun q hq => hpos q (List.mem_cons_of_mem _ hq)) hex'
    obtain ⟨ih1, ih2, ih3, ih4, ih5⟩ := hihx
    have hfoldl : (p :: rest).foldl fillStockStep (db0, items0, t0)
        = rest.foldl fillStockStep (db1, items0 ++ [⟨p.1, m.name, p.2⟩], t0 + p.2) := by
      rw [List.foldl_cons, hstep]
    refine ⟨?_, ?_, ?_, ?_, ?_⟩
    · intro q hq
      rcases List.mem_cons.mp hq with rfl | hq'
      · rw [hfoldl, quantityOf, ih2 q.1 (fun x hx => hkey x hx), hfind1_eq]
        simp [quantityOf, hfind]
      · rw [hfoldl, ih1 q hq']
        unfold quantityOf
        rw [hfind1_ne q.1 (hkey q hq')]
    · intro mid hmid
      rw [hfoldl, ih2 mid (fun x hx => hmid x (List.mem_cons_of_mem _ hx)),
        hfind1_ne mid (Ne.symm (hmid p hpmem))]
    · rw [hfoldl, ih3]
    · rw [hfoldl, ih4]
      have hmapeq : rest.map
          (fun q => (⟨q.1, ((findMaterial db1 q.1).map (·.name)).getD "", q.2⟩ :
            StockHistoryItem))
          = rest.map (fun q => ⟨q.1, ((findMaterial db0 q.1).map (·.name)).getD "", q.2⟩) := by
        apply List.map_congr_left
        intro q hq
        rw [hfind1_ne q.1 (hkey q hq)]
      rw [hmapeq, List.map_cons, List.append_assoc]
      simp [hfind]
    · rw [hfoldl, ih5, List.map_cons, List.sum_cons, add_assoc]

/-- Claim C7: a fill-stock batch whose pairs all name distinct existing
materials with positive quantities increases each named material's quantity by
its pair's amount and appends exactly one consolidated history record listing
all line items, whose total is the sum of the added quantities. -/
theorem fillStock_batch_updates_and_one_record (db : DB) (pairs : List (String × ℚ))
    (hnodup : (pairs.map Prod.fst).Nodup) (hval : ∀ p ∈ pairs, IntAtLeast p.2 0)
    (hpos : ∀ p ∈ pairs, 0 < p.2) (hex : ∀ p ∈ pairs, (findMaterial db p.1).isSome)
    (hne : pairs ≠ []) :
    (fillStockAction db pairs).1 = .ok ∧
    (∀ p ∈ pairs, quantityOf (fillStockAction db pairs).2 p.1
        = (quantityOf db p.1).map (· + p.2)) ∧
    (fillStockAction db pairs).2.stockHistory = db.stockHistory ++
      [.batch ⟨pairs.map
          (fun p => ⟨p.1, ((findMaterial db p.1).map (·.name)).getD "", p.2⟩),
        (pairs.map (·.2)).sum⟩] := by
  obtain ⟨l1, l2, l3, l4, l5⟩ := fillLoop_active pairs db [] 0 hnodup hpos hex
  have hitems : (pairs.foldl fillStockStep (db, [], 0)).2.1
      = pairs.map (fun p => ⟨p.1, ((findMaterial db p.1).map (·.name)).getD "", p.2⟩) := by
    simpa using l4
  have hnonempty : (pairs.foldl fillStockStep (db, [], 0)).2.1 ≠ [] := by
    rw [hitems]
    simpa using hne
  have hactval : ¬ ¬ (∀ p ∈ pairs, IntAtLeast p.2 0) := not_not.mpr hval
  refine ⟨?_, ?_, ?_⟩
  · simp [fillStockAction, if_neg hactval]
  · intro p hp
    simp only [fillStockAction, if_neg hactval, if_neg hnonempty]
    rw [← l1 p hp]
    rfl
  · simp only [fillStockAction, if_neg hactval, if_neg hnonempty]
    rw [l3, hitems, l5, zero_add]

/-- Witness for C7: the spec's scenario — `fillStock({A: 5, B: 3})` on A(10),
B(0) yields A = 15, B = 3 and exactly one record with both line items and
total 8. -/
theorem fillStock_batch_witness :
    (fillStockAction exDB [("A", 5), ("B", 3)]).1 = .ok ∧
    quantityOf (fillStockAction exDB [("A", 5), ("B", 3)]).2 "A" = some 15 ∧
    quantityOf (fillStockAction exDB [("A", 5), ("B", 3)]).2 "B" = some 3 ∧
    (fillStockAction exDB [("A", 5), ("B", 3)]).2.stockHistory
      = [.batch ⟨[⟨"A", "Alpha", 5⟩, ⟨"B", "Beta", 3⟩], 8⟩] := by
  have h := fillStock_batch_updates_and_one_record exDB [("A", 5), ("B", 3)] (by decide)
    (by norm_num [IntAtLeast]) (by norm_num) (by decide) (by decide)
  refine ⟨h.1, ?_, ?_, ?_⟩
  · have h2 := h.2.1 ("A", 5) (by decide)
    rw [show quantityOf exDB "A" = some 10 from rfl] at h2
    rw [h2]
    norm_num
  · have h2 := h.2.1 ("B", 3) (by decide)
    rw [show quantityOf exDB "B" = some 0 from rfl] at h2
    rw [h2]
    norm_num
  · rw [h.2.2]
    norm_num +decide [findMaterial, exDB, exA, exB, List.find?]

/-- The fill-stock loop leaves a skipped key alone: if every pair carrying
`key` is zero-quantity or `key` resolves to no material, the lookup at `key`
is unchanged and no accumulated line item carries `key`. -/
theorem fillLoop_skip (key : String) (db : DB) (pairs : List (String × ℚ)) :
    ∀ (db0 : DB) (items0 : List StockHistoryItem) (t0 : ℚ),
    (∀ q ∈ pairs, q.1 = key → (q.2 = 0 ∨ findMaterial db key = none)) →
    findMaterial db0 key = findMaterial db key →
    findMaterial (pairs.foldl fillStockStep (db0, items0, t0)).1 key = findMaterial db key ∧
    (key ∉ items0.map (·.materialId) →
      key ∉ (pairs.foldl fillStockStep (db0, items0, t0)).2.1.map (·.materialId)) := by
  induction pairs with
  | nil => intro db0 items0 t0 _ hcur; exact ⟨by simpa using hcur, fun h => by simpa using h⟩
  | cons q rest ih =>
    intro db0 items0 t0 hskip hcur
    have hrest : ∀ x ∈ rest, x.1 = key → (x.2 = 0 ∨ findMaterial db key = none) :=
      fun x hx => hskip x (List.mem_cons_of_mem _ hx)
    rw [List.foldl_cons]
    by_cases hqpos : 0 < q.2
    · by_cases hqk : q.1 = key
      · rcases hskip q (List.mem_cons_self _ _) hqk with hq0 | hnone
        · exact absurd (hq0 ▸ hqpos) (by norm_num)
        · have hq0 : findMaterial db0 q.1 = none := by rw [hqk, hcur, hnone]
          rw [show fillStockStep (db0, items0, t0) q = (db0, items0, t0) by
            simp [fillStockStep, if_pos hqpos, hq0]]
          exact ih db0 items0 t0 hrest hcur
      · cases hfind : findMaterial db0 q.1 with
        | none =>
          rw [show fillStockStep (db0, items0, t0) q = (db0, items0, t0) by
            simp [fillStockStep, if_pos hqpos, hfind]]
          exact ih db0 items0 t0 hrest hcur
        | some m =>
          rw [show fillStockStep (db0, items0, t0) q =
              ({ db0 with materials := setQuantityIn db0.materials q.1 (m.quantity + q.2) },
               items0 ++ [⟨q.1, m.name, q.2⟩], t0 + q.2) by
            simp [fillStockStep, if_pos hqpos, hfind]]
          have hcur' : findMaterial
              { db0 with materials := setQuantityIn db0.materials q.1 (m.quantity + q.2) } key
              = findMaterial db key := by
            rw [show findMaterial
                { db0 with materials := setQuantityIn db0.materials q.1 (m.quantity + q.2) } key
                = findMaterial db0 key from
              find?_setQuantityIn_ne db0.materials q.1 key (m.quantity + q.2) hqk, hcur]
          obtain ⟨c1, c2⟩ := ih _ (items0 ++ [⟨q.1, m.name, q.2⟩]) (t0 + q.2) hrest hcur'
          refine ⟨c1, fun hnot => c2 ?_⟩
          simp only [List.map_append, List.mem_append]
          rintro (hx | hx)
          · exact hnot hx
          · simp at hx
            exact hqk hx.symm
    · rw [show fillStockStep (db0, items0, t0) q = (db0, items0, t0) by
        simp [fillStockStep, if_neg hqpos]]
      exact ih db0 items0 t0 hrest hcur

/-- If every pair is zero-quantity or names a missing material, the fill-stock
loop is the identity. -/
theorem fillLoop_all_skip (pairs : List (String × ℚ)) :
    ∀ (db : DB) (items0 : List StockHistoryItem) (t0 : ℚ),
    (∀ q ∈ pairs, q.2 = 0 ∨ findMaterial db q.1 = none) →
    pairs.foldl fillStockStep (db, items0, t0) = (db, items0, t0) := by
  induction pairs with
  | nil => intro db items0 t0 _; simp
  | cons q rest ih =>
    intro db items0 t0 hall
    rw [List.foldl_cons]
    have hq := hall q (List.mem_cons_self _ _)
    have hstep : fillStockStep (db, items0, t0) q = (db, items0, t0) := by
      rcases hq with hq0 | hnone
      · simp [fillStockStep, hq0]
      · by_cases hqpos : 0 < q.2
        · simp [fillStockStep, if_pos hqpos, hnone]
        · simp [fillStockStep, if_neg hqpos]
    rw [hstep]
    exact ih db items0 t0 (fun x hx => hall x (List.mem_cons_of_mem _ hx))

/-- Claim C10: in a validated fill-stock batch with distinct keys, a pair
whose quantity is zero or whose material does not exist is skipped — the
lookup at its key is unchanged and no history line item names it — and when
every pair is skipped the whole database is unchanged while the action still
reports success. -/
theorem fillStock_skips_zero_and_missing (db : DB) (pairs : List (String × ℚ))
    (hval : ∀ p ∈ pairs, IntAtLeast p.2 0) (hnodup : (pairs.map Prod.fst).Nodup)
    (p : String × ℚ) (hp : p ∈ pairs) (hskip : p.2 = 0 ∨ findMaterial db p.1 = none) :
    (fillStockAction db pairs).1 = .ok ∧
    quantityOf (fillStockAction db pairs).2 p.1 = quantityOf db p.1 ∧
    p.1 ∉ (pairs.foldl fillStockStep (db, [], 0)).2.1.map (·.materialId) ∧
    ((∀ q ∈ pairs, q.2 = 0 ∨ findMaterial db q.1 = none) →
      (fillStockAction db pairs).2 = db) := by
  have hactval : ¬ ¬ (∀ q ∈ pairs, IntAtLeast q.2 0) := not_not.mpr hval
  have hskipall : ∀ q ∈ pairs, q.1 = p.1 → (q.2 = 0 ∨ findMaterial db p.1 = none) := by
    intro q hq hqk
    have : q = p := eq_of_mem_nodup_keys pairs hnodup q p hq hp hqk
    rcases hskip with h0 | hnone
    · exact .inl (this ▸ h0)
    · exact .inr hnone
  obtain ⟨s1, s2⟩ := fillLoop_skip p.1 db pairs db [] 0 hskipall rfl
  refine ⟨?_, ?_, s2 (by simp), ?_⟩
  · simp [fillStockAction, if_neg hactval]
  · simp only [fillStockAction, if_neg hactval]
    by_cases hempty : (pairs.foldl fillStockStep (db, [], 0)).2.1 = []
    · rw [if_pos hempty, quantityOf, s1]
      rfl
    · rw [if_neg hempty]
      show ((pairs.foldl fillStockStep (db, [], 0)).1.materials.find?
        (fun m => m.id == p.1)).map (·.quantity) = quantityOf db p.1
      rw [show (pairs.foldl fillStockStep (db, [], 0)).1.materials.find?
          (fun m => m.id == p.1) = findMaterial (pairs.foldl fillStockStep (db, [], 0)).1 p.1
        from rfl, s1]
      rfl
  · intro hall
    have hloop := fillLoop_all_skip pairs db [] 0 hall
    simp [fillStockAction, if_neg hactval, hloop]

/-- Witness for C10: the batch `{A: 0, Z: 7}` (A exists with zero added, Z
does not exist) succeeds and leaves the database untouched. -/
theorem fillStock_skips_witness :
    (fillStockAction exDB [("A", 0), ("Z", 7)]).1 = .ok ∧
    quantityOf (fillStockAction exDB [("A", 0), ("Z", 7)]).2 "A" = quantityOf exDB "A" ∧
    (fillStockAction exDB [("A", 0), ("Z", 7)]).2 = exDB := by
  have h := fillStock_skips_zero_and_missing exDB [("A", 0), ("Z", 7)]
    (by norm_num [IntAtLeast]) (by decide) ("A", 0) (by decide) (.inl rfl)
  refine ⟨h.1, h.2.1, h.2.2.2 ?_⟩
  intro q hq
  rcases List.mem_cons.mp hq with rfl | hq'
  · exact .inl rfl
  · rcases List.mem_cons.mp hq' with rfl | hq''
    · exact .inr (by decide)
    · simp at hq''

/-! ### Claim C5 -/

theorem itemsSum_nil (materialId : String) : itemsSum [] materialId = 0 := by
  simp [itemsSum]

theorem itemsSum_cons (it : EntryItem) (items : List EntryItem) (materialId : String) :
    itemsSum (it :: items) materialId
      = (if it.materialId = materialId then it.quantity else 0) + itemsSum items materialId := by
  by_cases h : it.materialId = materialId
  · simp [itemsSum, List.filter_cons, h]
  · simp [itemsSum, List.filter_cons, h]

theorem usagePairItem_skip (t : Direction) (acc : List (String × ℚ × ℚ)) (it : EntryItem)
    (hid : it.materialId = "") : usagePairItem t acc it = acc := by
  simp [usagePairItem, hid]

theorem usagePairItem_out (acc : List (String × ℚ × ℚ)) (it : EntryItem)
    (hid : ¬ it.materialId = "") :
    usagePairItem .dout acc it
      = mapSet acc it.materialId
          ((mapGetD acc it.materialId (0, 0)).1 + it.quantity,
           (mapGetD acc it.materialId (0, 0)).2) := by
  simp [usagePairItem, hid]

theorem usagePairItem_in (acc : List (String × ℚ × ℚ)) (it : EntryItem)
    (hid : ¬ it.materialId = "") :
    usagePairItem .din acc it
      = mapSet acc it.materialId
          ((mapGetD acc it.materialId (0, 0)).1,
           (mapGetD acc it.materialId (0, 0)).2 + it.quantity) := by
  simp [usagePairItem, hid]

theorem usagePairItem_fold_out (mid : String) (hmid : mid ≠ "") :
    ∀ (items : List EntryItem) (acc : List (String × ℚ × ℚ)),
    mapGetD (items.foldl (usagePairItem .dout) acc) mid (0, 0)
      = ((mapGetD acc mid (0, 0)).1 + itemsSum items mid, (mapGetD acc mid (0, 0)).2) := by
  intro items
  induction items with
  | nil => intro acc; simp [itemsSum_nil]
  | cons it rest ih =>
    intro acc
    rw [List.foldl_cons, itemsSum_cons]
    by_cases hid : it.materialId = ""
    · have hne : ¬ it.materialId = mid := fun hx => hmid (hx.symm.trans hid)
      rw [usagePairItem_skip _ _ _ hid, ih acc, if_neg hne, zero_add]
    · by_cases hkey : it.materialId = mid
      · rw [usagePairItem_out _ _ hid, ih _, if_pos hkey, hkey, mapGetD_set_self, add_assoc]
      · rw [usagePairItem_out _ _ hid, ih _, if_neg hkey,
          mapGetD_set_ne _ _ _ _ _ hkey, zero_add]

theorem usagePairItem_fold_in (mid : String) (hmid : mid ≠ "") :
    ∀ (items : List EntryItem) (acc : List (String × ℚ × ℚ)),
    mapGetD (items.foldl (usagePairItem .din) acc) mid (0, 0)
      = ((mapGetD acc mid (0, 0)).1, (mapGetD acc mid (0, 0)).2 + itemsSum items mid) := by
  intro items
  induction items with
  | nil => intro acc; simp [itemsSum_nil]
  | cons it rest ih =>
    intro acc
    rw [List.foldl_cons, itemsSum_cons]
    by_cases hid : it.materialId = ""
    · have hne : ¬ it.materialId = mid := fun hx => hmid (hx.symm.trans hid)
      rw [usagePairItem_skip _ _ _ hid, ih acc, if_neg hne, zero_add]
    · by_cases hkey : it.materialId = mid
      · rw [usagePairItem_in _ _ hid, ih _, if_pos hkey, hkey, mapGetD_set_self, add_assoc]
      · rw [usagePairItem_in _ _ hid, ih _, if_neg hkey,
          mapGetD_set_ne _ _ _ _ _ hkey, zero_add]

theorem usagePairStep_getD (acc : List (String × ℚ × ℚ)) (e : ClientEntry) (mid : String)
    (hmid : mid ≠ "") :
    mapGetD (usagePairStep acc e) mid (0, 0)
      = ((mapGetD acc mid (0, 0)).1 + outContrib mid e,
         (mapGetD acc mid (0, 0)).2 + inContrib mid e) := by
  cases ht : e.type with
  | dout =>
    rw [usagePairStep, ht, usagePairItem_fold_out mid hmid e.materials acc]
    simp [outContrib, inContrib, ht]
  | din =>
    rw [usagePairStep, ht, usagePairItem_fold_in mid hmid e.materials acc]
    simp [outContrib, inContrib, ht]

theorem isKey_mapSet (m : List (String × α)) (k k' : String) (v : α) :
    isKey (mapSet m k v) k' = (decide (k = k') || isKey m k') := by
  induction m with
  | nil => simp [mapSet, isKey]
  | cons p rest ih =>
    by_cases hp : p.1 = k
    · simp only [mapSet, if_pos hp, isKey]
      rw [hp]
      cases h1 : decide (k = k') <;> cases h2 : isKey rest k' <;> simp_all
    · simp only [mapSet, if_neg hp, isKey, ih]
      cases h1 : decide (p.1 = k') <;> cases h2 : decide (k = k') <;> simp_all

theorem isKey_usagePairItem (t : Direction) (acc : List (String × ℚ × ℚ)) (it : EntryItem)
    (mid : String) (hmid : mid ≠ "") :
    isKey (usagePairItem t acc it) mid = ((it.materialId == mid) || isKey acc mid) := by
  by_cases hid : it.materialId = ""
  · have hne : ¬ it.materialId = mid := fun hx => hmid (hx.symm.trans hid)
    rw [usagePairItem_skip _ _ _ hid]
    simp [hne]
  · cases t with
    | dout =>
      rw [usagePairItem_out _ _ hid, isKey_mapSet]
      by_cases h : it.materialId = mid <;> simp [h]
    | din =>
      rw [usagePairItem_in _ _ hid, isKey_mapSet]
      by_cases h : it.materialId = mid <;> simp [h]

theorem usagePairItem_fold_isKey (t : Direction) (mid : String) (hmid : mid ≠ "") :
    ∀ (items : List EntryItem) (acc : List (String × ℚ × ℚ)),
    isKey (items.foldl (usagePairItem t) acc) mid
      = (isKey acc mid || items.any (fun it => it.materialId == mid)) := by
  intro items
  induction items with
  | nil => intro acc; simp
  | cons it rest ih =>
    intro acc
    rw [List.foldl_cons, List.any_cons, ih _, isKey_usagePairItem t acc it mid hmid]
    cases h1 : (it.materialId == mid) <;> cases h2 : isKey acc mid <;> simp

theorem usageFold_getD (entries : List ClientEntry) (mid : String) (hmid : mid ≠ "") :
    ∀ acc : List (String × ℚ × ℚ),
    mapGetD (entries.foldl usagePairStep acc) mid (0, 0)
      = ((mapGetD acc mid (0, 0)).1 + outSum entries mid,
         (mapGetD acc mid (0, 0)).2 + inSum entries mid) := by
  induction entries with
  | nil => intro acc; simp [outSum, inSum]
  | cons e rest ih =>
    intro acc
    rw [List.foldl_cons, ih (usagePairStep acc e), usagePairStep_getD acc e mid hmid]
    show (_ + outContrib mid e + outSum rest mid, _ + inContrib mid e + inSum rest mid) = _
    rw [show outSum (e :: rest) mid = outContrib mid e + outSum rest mid by
        simp [outSum, List.map_cons],
      show inSum (e :: rest) mid = inContrib mid e + inSum rest mid by
        simp [inSum, List.map_cons],
      add_assoc, add_assoc]

theorem usageFold_isKey (entries : List ClientEntry) (mid : String) (hmid : mid ≠ "") :
    ∀ acc : List (String × ℚ × ℚ),
    isKey (entries.foldl usagePairStep acc) mid
      = (isKey acc mid ||
         entries.any (fun e => e.materials.any (fun it => it.materialId == mid))) := by
  induction entries with
  | nil => intro acc; simp
  | cons e rest ih =>
    intro acc
    rw [List.foldl_cons, List.any_cons, ih (usagePairStep acc e),
      show isKey (usagePairStep acc e) mid
          = (isKey acc mid || e.materials.any (fun it => it.materialId == mid)) from
        usagePairItem_fold_isKey e.type mid hmid e.materials acc]
    cases isKey acc mid <;> simp

theorem usageLookup_map (pairs : List (String × ℚ × ℚ)) (mid : String) :
    usageLookup (pairs.map (fun p => ⟨p.1, p.2.1, p.2.2, p.2.1 - p.2.2⟩)) mid
      = if isKey pairs mid = true then
          some ⟨mid, (mapGetD pairs mid (0, 0)).1, (mapGetD pairs mid (0, 0)).2,
            (mapGetD pairs mid (0, 0)).1 - (mapGetD pairs mid (0, 0)).2⟩
        else none := by
  induction pairs with
  | nil => simp [usageLookup, isKey]
  | cons p rest ih =>
    rw [List.map_cons]
    by_cases hp : p.1 = mid
    · rw [show usageLookup
          ((⟨p.1, p.2.1, p.2.2, p.2.1 - p.2.2⟩ : UsageRow) ::
            rest.map (fun p => ⟨p.1, p.2.1, p.2.2, p.2.1 - p.2.2⟩)) mid
          = some ⟨p.1, p.2.1, p.2.2, p.2.1 - p.2.2⟩ from by simp [usageLookup, hp]]
      rw [if_pos (by simp [isKey, hp]), hp]
      simp [mapGetD, hp]
    · rw [show usageLookup
          ((⟨p.1, p.2.1, p.2.2, p.2.1 - p.2.2⟩ : UsageRow) ::
            rest.map (fun p => ⟨p.1, p.2.1, p.2.2, p.2.1 - p.2.2⟩)) mid
          = usageLookup (rest.map (fun p => ⟨p.1, p.2.1, p.2.2, p.2.1 - p.2.2⟩)) mid from by
        simp [usageLookup, hp]]
      rw [ih]
      have hkeys : isKey (p :: rest) mid = isKey rest mid := by simp [isKey, hp]
      have hget : mapGetD (p :: rest) mid ((0 : ℚ), (0 : ℚ)) = mapGetD rest mid (0, 0) := by
        simp [mapGetD, hp]
      rw [hkeys, hget]

theorem occursIn_iff_any (entries : List ClientEntry) (mid : String) :
    OccursIn entries mid
      ↔ (entries.any (fun e => e.materials.any (fun it => it.materialId == mid))) = true := by
  simp [OccursIn]

/-- The characterization of one usage row: sums over the ledger. -/
theorem computeUsage_char (entries : List ClientEntry) (mid : String) (hmid : mid ≠ "") :
    usageLookup (computeUsage entries) mid
      = if OccursIn entries mid then
          some ⟨mid, outSum entries mid, inSum entries mid,
            outSum entries mid - inSum entries mid⟩
        else none := by
  rw [computeUsage, usageLookup_map, usageFold_isKey entries mid hmid [],
    usageFold_getD entries mid hmid []]
  simp only [isKey, mapGetD, Bool.false_or, zero_add]
  by_cases h : OccursIn entries mid
  · rw [if_pos ((occursIn_iff_any entries mid).mp h), if_pos h]
  · rw [if_neg (fun hx => h ((occursIn_iff_any entries mid).mpr hx)), if_neg h]

/-- Counterexample to C5 as stated: a ledger holding a single return (`in`) of
5 of material A yields the usage row `outQty = 0, inQty = 5, netQty = −5` —
the route computes `netQty = outQty − inQty` with no clamp, so `netQty`
differs from `max 0 (outQty − inQty) = 0`. -/
theorem computeUsage_netQty_unclamped_cex :
    computeUsage [exEntryIn] = [⟨"A", 0, 5, -5⟩] ∧
    ¬ ((-5 : ℚ) = max 0 ((0 : ℚ) - 5)) := by
  constructor
  · norm_num +decide [computeUsage, usagePairStep, usagePairItem, exEntryIn, mapGetD, mapSet]
  · norm_num

/-- Claim C5 amended: for every material appearing in the client's ledger the
usage route returns `outQty = Σout`, `inQty = Σin` and
`netQty = outQty − inQty` (with no clamp at zero — the `max(0, ·)` clamp is
applied later, in the costing computation), and the row's values are
independent of the order of the ledger entries. -/
theorem computeUsage_sums_order_independent (entries entries' : List ClientEntry)
    (mid : String) (hmid : mid ≠ "") (hperm : entries.Perm entries') :
    usageLookup (computeUsage entries) mid
      = (if OccursIn entries mid then
          some ⟨mid, outSum entries mid, inSum entries mid,
            outSum entries mid - inSum entries mid⟩
         else none) ∧
    usageLookup (computeUsage entries) mid = usageLookup (computeUsage entries') mid := by
  refine ⟨computeUsage_char entries mid hmid, ?_⟩
  rw [computeUsage_char entries mid hmid, computeUsage_char entries' mid hmid]
  have hocc : OccursIn entries mid ↔ OccursIn entries' mid := by
    unfold OccursIn
    constructor
    · rintro ⟨e, he, hit⟩; exact ⟨e, hperm.mem_iff.mp he, hit⟩
    · rintro ⟨e, he, hit⟩; exact ⟨e, hperm.mem_iff.mpr he, hit⟩
  have hout : outSum entries mid = outSum entries' mid := (hperm.map _).sum_eq
  have hin : inSum entries mid = inSum entries' mid := (hperm.map _).sum_eq
  rw [hout, hin]
  by_cases h : OccursIn entries mid
  · rw [if_pos h, if_pos (hocc.mp h)]
  · rw [if_neg h, if_neg (fun hx => h (hocc.mpr hx))]

/-- Witness for the amended C5: on the one-entry ledger (return of 5 of A),
the characterized row is `⟨A, 0, 5, −5⟩`. -/
theorem computeUsage_sums_witness :
    usageLookup (computeUsage [exEntryIn]) "A" = some ⟨"A", 0, 5, -5⟩ := by
  have h := (computeUsage_sums_order_independent [exEntryIn] [exEntryIn] "A" (by decide)
    (List.Perm.refl _)).1
  rw [h, if_pos ⟨exEntryIn, List.mem_singleton.mpr rfl, ⟨"A", "Alpha", 5⟩,
    List.mem_singleton.mpr rfl, rfl⟩]
  norm_num +decide [outSum, inSum, outContrib, inContrib, itemsSum, exEntryIn]

/-! ### Claim C6 -/

theorem mapGetD_snd_default (m : List (String × String × ℚ)) (k : String) (a a' : String)
    (b : ℚ) : (mapGetD m k (a, b)).2 = (mapGetD m k (a', b)).2 := by
  induction m with
  | nil => simp [mapGetD]
  | cons p rest ih =>
    by_cases hp : p.1 = k
    · simp [mapGetD, hp]
    · simpa [mapGetD, hp] using ih

theorem usageNetItem_skip (sign : ℚ) (acc : List (String × String × ℚ)) (it : EntryItem)
    (hid : it.materialId = "") : usageNetItem sign acc it = acc := by
  simp [usageNetItem, hid]

theorem usageNetItem_set (sign : ℚ) (acc : List (String × String × ℚ)) (it : EntryItem)
    (hid : ¬ it.materialId = "") :
    usageNetItem sign acc it
      = mapSet acc it.materialId
          (if (mapGetD acc it.materialId (it.materialName, 0)).1 = "" then it.materialName
           else (mapGetD acc it.materialId (it.materialName, 0)).1,
           (mapGetD acc it.materialId (it.materialName, 0)).2 + sign * it.quantity) := by
  simp [usageNetItem, hid]

theorem usageNetItem_fold_qty (sign : ℚ) (mid : String) (hmid : mid ≠ "") :
    ∀ (items : List EntryItem) (acc : List (String × String × ℚ)),
    (mapGetD (items.foldl (usageNetItem sign) acc) mid ("", 0)).2
      = (mapGetD acc mid ("", 0)).2 + sign * itemsSum items mid := by
  intro items
  induction items with
  | nil => intro acc; simp [itemsSum_nil]
  | cons it rest ih =>
    intro acc
    rw [List.foldl_cons, itemsSum_cons]
    by_cases hid : it.materialId = ""
    · have hne : ¬ it.materialId = mid := fun hx => hmid (hx.symm.trans hid)
      rw [usageNetItem_skip _ _ _ hid, ih acc, if_neg hne, zero_add]
    · by_cases hkey : it.materialId = mid
      · rw [usageNetItem_set _ _ _ hid, ih _, if_pos hkey, hkey, mapGetD_set_self]
        show (mapGetD acc mid (it.materialName, 0)).2 + sign * it.quantity
            + sign * itemsSum rest mid = _
        rw [mapGetD_snd_default acc mid it.materialName ""]
        ring
      · rw [usageNetItem_set _ _ _ hid, ih _, if_neg hkey, mapGetD_set_ne _ _ _ _ _ hkey,
          zero_add]

theorem usageNetStep_qty (acc : List (String × String × ℚ)) (e : ClientEntry) (mid : String)
    (hmid : mid ≠ "") :
    (mapGetD (usageNetStep acc e) mid ("", 0)).2
      = (mapGetD acc mid ("", 0)).2 + (outContrib mid e - inContrib mid e) := by
  cases ht : e.type with
  | dout =>
    rw [usageNetStep, ht, usageNetItem_fold_qty 1 mid hmid e.materials acc]
    simp [outContrib, inContrib, ht]
  | din =>
    rw [usageNetStep, ht, usageNetItem_fold_qty (-1) mid hmid e.materials acc]
    simp [outContrib, inContrib, ht]

theorem usageNetFold_qty (entries : List ClientEntry) (mid : String) (hmid : mid ≠ "") :
    ∀ acc : List (String × String × ℚ),
    (mapGetD (entries.foldl usageNetStep acc) mid ("", 0)).2
      = (mapGetD acc mid ("", 0)).2 + (outSum entries mid - inSum entries mid) := by
  induction entries with
  | nil => intro acc; simp [outSum, inSum]
  | cons e rest ih =>
    intro acc
    rw [List.foldl_cons, ih (usageNetStep acc e), usageNetStep_qty acc e mid hmid,
      show outSum (e :: rest) mid = outContrib mid e + outSum rest mid by
        simp [outSum, List.map_cons],
      show inSum (e :: rest) mid = inContrib mid e + inSum rest mid by
        simp [inSum, List.map_cons]]
    ring

theorem isKey_usageNetItem (sign : ℚ) (acc : List (String × String × ℚ)) (it : EntryItem)
    (mid : String) (hmid : mid ≠ "") :
    isKey (usageNetItem sign acc it) mid = ((it.materialId == mid) || isKey acc mid) := by
  by_cases hid : it.materialId = ""
  · have hne : ¬ it.materialId = mid := fun hx => hmid (hx.symm.trans hid)
    rw [usageNetItem_skip _ _ _ hid]
    simp [hne]
  · rw [usageNetItem_set _ _ _ hid, isKey_mapSet]
    by_cases h : it.materialId = mid <;> simp [h]

theorem usageNetItem_fold_isKey (sign : ℚ) (mid : String) (hmid : mid ≠ "") :
    ∀ (items : List EntryItem) (acc : List (String × String × ℚ)),
    isKey (items.foldl (usageNetItem sign) acc) mid
      = (isKey acc mid || items.any (fun it => it.materialId == mid)) := by
  intro items
  induction items with
  | nil => intro acc; simp
  | cons it rest ih =>
    intro acc
    rw [List.foldl_cons, List.any_cons, ih _, isKey_usageNetItem sign acc it mid hmid]
    cases h1 : (it.materialId == mid) <;> cases h2 : isKey acc mid <;> simp

theorem usageNetFold_isKey (entries : List ClientEntry) (mid : String) (hmid : mid ≠ "") :
    ∀ acc : List (String × String × ℚ),
    isKey (entries.foldl usageNetStep acc) mid
      = (isKey acc mid ||
         entries.any (fun e => e.materials.any (fun it => it.materialId == mid))) := by
  induction entries with
  | nil => intro acc; simp
  | cons e rest ih =>
    intro acc
    rw [List.foldl_cons, List.any_cons, ih (usageNetStep acc e),
      show isKey (usageNetStep acc e) mid
          = (isKey acc mid || e.materials.any (fun it => it.materialId == mid)) from
        usageNetItem_fold_isKey _ mid hmid e.materials acc]
    cases isKey acc mid <;> simp

theorem usageNetItem_fold_key_ne_empty (sign : ℚ) :
    ∀ (items : List EntryItem) (acc : List (String × String × ℚ)),
    isKey acc "" = false → isKey (items.foldl (usageNetItem sign) acc) "" = false := by
  intro items
  induction items with
  | nil => intro acc h; simpa using h
  | cons it rest ih =>
    intro acc h
    rw [List.foldl_cons]
    refine ih _ ?_
    by_cases hid : it.materialId = ""
    · rwa [usageNetItem_skip _ _ _ hid]
    · rw [usageNetItem_set _ _ _ hid, isKey_mapSet]
      simp [hid, h]

theorem usageNet_key_ne_empty (entries : List ClientEntry) :
    ∀ acc : List (String × String × ℚ),
    isKey acc "" = false → isKey (entries.foldl usageNetStep acc) "" = false := by
  induction entries with
  | nil => intro acc h; simpa using h
  | cons e rest ih =>
    intro acc h
    rw [List.foldl_cons]
    exact ih _ (usageNetItem_fold_key_ne_empty _ e.materials acc h)

theorem usageNetItem_fold_nodup (sign : ℚ) :
    ∀ (items : List EntryItem) (acc : List (String × String × ℚ)),
    NodupKeys acc → NodupKeys (items.foldl (usageNetItem sign) acc) := by
  intro items
  induction items with
  | nil => intro acc h; simpa using h
  | cons it rest ih =>
    intro acc h
    rw [List.foldl_cons]
    refine ih _ ?_
    by_cases hid : it.materialId = ""
    · rwa [usageNetItem_skip _ _ _ hid]
    · rw [usageNetItem_set _ _ _ hid]
      exact nodupKeys_mapSet _ _ _ h

theorem usageNet_nodupKeys (entries : List ClientEntry) :
    ∀ acc : List (String × String × ℚ),
    NodupKeys acc → NodupKeys (entries.foldl usageNetStep acc) := by
  induction entries with
  | nil => intro acc h; simpa using h
  | cons e rest ih =>
    intro acc h
    rw [List.foldl_cons]
    exact ih _ (usageNetItem_fold_nodup _ e.materials acc h)

/-- The net-usage value of any element of the usage map is `Σout − Σin` for
its key, and its key is non-empty. -/
theorem usageNet_mem_char (entries : List ClientEntry) (u : String × String × ℚ)
    (hu : u ∈ usageNet entries) :
    u.1 ≠ "" ∧ u.2.2 = outSum entries u.1 - inSum entries u.1 := by
  have hnodup : NodupKeys (usageNet entries) :=
    usageNet_nodupKeys entries [] (by simp [NodupKeys])
  have hmem : (u.1, u.2) ∈ usageNet entries := hu
  have hchar := (mem_iff_getD (usageNet entries) u.1 u.2 ("", 0) hnodup).mp hmem
  have hne : u.1 ≠ "" := by
    intro hx
    have hkey := hchar.1
    rw [hx] at hkey
    have hfalse : isKey (usageNet entries) "" = false :=
      usageNet_key_ne_empty entries [] (by simp [isKey])
    rw [hfalse] at hkey
    exact Bool.false_ne_true hkey
  refine ⟨hne, ?_⟩
  have := congrArg Prod.snd hchar.2
  rw [this]
  rw [show usageNet entries = entries.foldl usageNetStep [] from rfl,
    usageNetFold_qty entries u.1 hne []]
  simp [mapGetD]

/-- A key that occurs in the ledger with positive net usage has an element in
the usage map carrying exactly that net value. -/
theorem usageNet_exists_of_occurs (entries : List ClientEntry) (mid : String)
    (hmid : mid ≠ "") (hocc : OccursIn entries mid) :
    ∃ u ∈ usageNet entries, u.1 = mid ∧ u.2.2 = outSum entries mid - inSum entries mid := by
  have hkey : isKey (usageNet entries) mid = true := by
    rw [show usageNet entries = entries.foldl usageNetStep [] from rfl,
      usageNetFold_isKey entries mid hmid []]
    simp only [isKey, Bool.false_or]
    exact (occursIn_iff_any entries mid).mp hocc
  obtain ⟨k, hk⟩ := List.mem_map.mp ((isKey_iff_mem_keys _ mid).mp hkey)
  refine ⟨k, hk.1, hk.2, ?_⟩
  have := (usageNet_mem_char entries k hk.1).2
  rw [this, hk.2]

theorem foldl_add_map {β : Type _} (f : β → ℚ) :
    ∀ (l : List β) (a : ℚ), l.foldl (fun s r => s + f r) a = a + (l.map f).sum := by
  intro l
  induction l with
  | nil => intro a; simp
  | cons b rest ih =>
    intro a
    rw [List.foldl_cons, ih (a + f b), List.map_cons, List.sum_cons]
    ring

theorem sum_map_total_split (l : List CostingItem)
    (h : ∀ r ∈ l, r.total = r.base + r.gst) :
    (l.map (·.total)).sum = (l.map (·.base)).sum + (l.map (·.gst)).sum := by
  induction l with
  | nil => simp
  | cons r rest ih =>
    simp only [List.map_cons, List.sum_cons]
    rw [h r (List.mem_cons_self _ _), ih (fun x hx => h x (List.mem_cons_of_mem _ hx))]
    ring

/-- Claim C6: the costing GET route keeps exactly the materials whose net
ledger quantity `Σout − Σin` is positive; every kept line satisfies
`base = qty * rate`, `gst = base * (gstPercent / 100)`, `total = base + gst`
with `qty` equal to the net quantity; the lines are sorted by material name;
and the aggregates satisfy `beforeTax = Σ base`, `gst = Σ gst`, and
`grand = Σ total`. -/
theorem costingRoute_lines_and_totals (mats : List Material) (entries : List ClientEntry)
    (clientId : String) :
    (∀ r ∈ (computeCostingSnapshot false clientId mats entries).items,
        r.base = r.qty * r.rate ∧ r.gst = r.base * (r.gstPercent / 100) ∧
        r.total = r.base + r.gst ∧ 0 < r.qty ∧ r.materialId ≠ "" ∧
        r.qty = outSum entries r.materialId - inSum entries r.materialId) ∧
    (∀ mid : String, mid ≠ "" → OccursIn entries mid →
        0 < outSum entries mid - inSum entries mid →
        ∃ r ∈ (computeCostingSnapshot false clientId mats entries).items,
          r.materialId = mid) ∧
    List.Sorted nameLe (computeCostingSnapshot false clientId mats entries).items ∧
    (computeCostingSnapshot false clientId mats entries).beforeTax
      = ((computeCostingSnapshot false clientId mats entries).items.map (·.base)).sum ∧
    (computeCostingSnapshot false clientId mats entries).gst
      = ((computeCostingSnapshot false clientId mats entries).items.map (·.gst)).sum ∧
    (computeCostingSnapshot false clientId mats entries).grand
      = ((computeCostingSnapshot false clientId mats entries).items.map (·.total)).sum := by
  have hitems : (computeCostingSnapshot false clientId mats entries).items
      = computeCostingItems false mats entries := rfl
  have hmem : ∀ r, r ∈ computeCostingItems false mats entries ↔
      (r ∈ (usageNet entries).map (fun u => costingLine false mats
          ((usageNet entries).map (·.1)) u.1 u.2.1 u.2.2) ∧ 0 < r.qty) := by
    intro r
    rw [computeCostingItems, sortByName, List.mem_insertionSort, List.mem_filter]
    simp
  have hperitem : ∀ r ∈ computeCostingItems false mats entries,
      r.base = r.qty * r.rate ∧ r.gst = r.base * (r.gstPercent / 100) ∧
      r.total = r.base + r.gst ∧ 0 < r.qty ∧ r.materialId ≠ "" ∧
      r.qty = outSum entries r.materialId - inSum entries r.materialId := by
    intro r hr
    obtain ⟨hrm, hrq⟩ := (hmem r).mp hr
    obtain ⟨u, hu, hru⟩ := List.mem_map.mp hrm
    obtain ⟨hukey, huval⟩ := usageNet_mem_char entries u hu
    subst hru
    refine ⟨rfl, rfl, rfl, hrq, by simpa [costingLine] using hukey, ?_⟩
    have hqty : (costingLine false mats ((usageNet entries).map (·.1)) u.1 u.2.1 u.2.2).qty
        = max 0 u.2.2 := rfl
    have hpos : 0 < max 0 u.2.2 := hqty ▸ hrq
    have hupos : 0 < u.2.2 := by
      by_contra hle
      rw [max_eq_left (not_lt.mp hle)] at hpos
      exact lt_irrefl 0 hpos
    have hmatid : (costingLine false mats ((usageNet entries).map (·.1))
        u.1 u.2.1 u.2.2).materialId = u.1 := rfl
    show (costingLine false mats ((usageNet entries).map (·.1)) u.1 u.2.1 u.2.2).qty
        = outSum entries _ - inSum entries _
    rw [hqty, max_eq_right hupos.le, hmatid]
    exact huval
  refine ⟨hitems ▸ hperitem, ?_, ?_, ?_, ?_, ?_⟩
  · intro mid hmid hocc hpos
    obtain ⟨u, hu, hukey, huval⟩ := usageNet_exists_of_occurs entries mid hmid hocc
    refine ⟨costingLine false mats ((usageNet entries).map (·.1)) u.1 u.2.1 u.2.2, ?_, ?_⟩
    · rw [hitems]
      refine (hmem _).mpr ⟨List.mem_map.mpr ⟨u, hu, rfl⟩, ?_⟩
      show (0 : ℚ) < max 0 u.2.2
      rw [huval]
      exact lt_max_of_lt_right hpos
    · simpa [costingLine] using hukey
  · rw [hitems, computeCostingItems, sortByName]
    exact List.sorted_insertionSort nameLe _
  · rw [show (computeCostingSnapshot false clientId mats entries).beforeTax
        = (computeCostingItems false mats entries).foldl (fun s r => s + r.base) 0 from rfl,
      foldl_add_map, zero_add, hitems]
  · rw [show (computeCostingSnapshot false clientId mats entries).gst
        = (computeCostingItems false mats entries).foldl (fun s r => s + r.gst) 0 from rfl,
      foldl_add_map, zero_add, hitems]
  · rw [show (computeCostingSnapshot false clientId mats entries).grand
        = (computeCostingItems false mats entries).foldl (fun s r => s + r.base) 0
          + (computeCostingItems false mats entries).foldl (fun s r => s + r.gst) 0 from rfl,
      foldl_add_map, foldl_add_map, zero_add, zero_add, hitems,
      sum_map_total_split (computeCostingItems false mats entries)
        (fun r hr => (hperitem r hr).2.2.1)]

/-- Witness for C6: with material A (price 2, GST 18%) and a ledger holding a
single dispatch of 10 of A, the costing keeps a line for A. -/
theorem costingRoute_witness :
    ∃ r ∈ (computeCostingSnapshot false "c1" [exA, exB] [exEntryOut]).items,
      r.materialId = "A" :=
  (costingRoute_lines_and_totals [exA, exB] [exEntryOut] "c1").2.1 "A" (by decide)
    ⟨exEntryOut, List.mem_singleton.mpr rfl, ⟨"A", "Alpha", 10⟩,
      List.mem_singleton.mpr rfl, rfl⟩
    (by norm_num +decide [outSum, inSum, outContrib, inContrib, itemsSum, exEntryOut])

end MaterialCount
